import Mathlib

/-
Verification of the TourGenie UI state machines and service orchestration.

The embedding models the code of src/App.tsx together with the type
declarations and the TourService class of the repository (types.ts and
geminiService.ts, shipped here as src/unnamed/part_000).  Remote calls of
the generative API, browser file metadata, object URLs, Math.random draws
and wall-clock timing are modelled as environment records supplying the
outcome of each external interaction; everything the component itself
computes is translated directly from the source.
-/

namespace TourGenie

/-- The four steps of the tour creation flow (GenerationState.step in types.ts). -/
inductive Step where
  | input
  | processing
  | generating
  | final
deriving DecidableEq, Repr

/-- Scene.status in types.ts. -/
inductive SceneStatus where
  | pending
  | generating
  | completed
  | failed
deriving DecidableEq, Repr

/-- EditorClip.status in types.ts; generatingAudio stands for the
string generating-audio of the source. -/
inductive ClipStatus where
  | idle
  | analyzing
  | generatingAudio
  | ready
deriving DecidableEq, Repr

/-- Scene record of types.ts. -/
structure Scene where
  id : String
  timestamp : String
  visualPrompt : String
  narration : String
  videoUrl : Option String := none
  audioUrl : Option String := none
  status : SceneStatus
  screenshotIndex : Option Nat := none
deriving DecidableEq, Repr

/-- GenerationState of types.ts. -/
structure GenerationState where
  step : Step
  scenes : List Scene
  progress : Nat
deriving DecidableEq, Repr

/-- AppInput of types.ts (screenshots hold base64 data strings). -/
structure AppInput where
  name : String
  url : String
  description : String
  script : String
  screenshots : List String
deriving DecidableEq, Repr

/-- An uploaded browser File together with the values the environment
produces for it: the Math.random based id, the object URL of
URL.createObjectURL, and the duration read from the video metadata by
getVideoDuration. -/
structure UploadedFile where
  randomId : String
  objectUrl : String
  duration : ℚ
deriving DecidableEq, Repr

/-- EditorClip of types.ts. -/
structure EditorClip where
  id : String
  file : UploadedFile
  previewUrl : String
  duration : ℚ
  narration : Option String := none
  audioUrl : Option String := none
  analysis : Option String := none
  status : ClipStatus
deriving DecidableEq, Repr

/-- The youtubeMetadata payload of EditorState in types.ts. -/
structure YouTubeMetadata where
  title : String
  description : String
  tags : List String
deriving DecidableEq, Repr

/-- EditorState of types.ts. -/
structure EditorState where
  clips : List EditorClip
  isProcessing : Bool
  includeVoiceover : Bool
  isRendering : Bool
  isRendered : Bool
  combinedVideoUrl : Option String := none
  youtubeMetadata : Option YouTubeMetadata := none
deriving DecidableEq, Repr

/-! ### String containment, JavaScript String.prototype.includes -/

/-- Whether the pattern occurs at the head of the text. -/
def charsLeadWith : List Char → List Char → Bool
  | [], _ => true
  | _ :: _, [] => false
  | p :: ps, c :: cs => p == c && charsLeadWith ps cs

/-- Whether the pattern occurs somewhere in the text. -/
def charsContain (pat : List Char) : List Char → Bool
  | [] => charsLeadWith pat []
  | c :: cs => charsLeadWith pat (c :: cs) || charsContain pat cs

/-- msg.includes(pat) of JavaScript. -/
def strIncludes (msg pat : String) : Bool :=
  charsContain pat.data msg.data

/-! ### handleGlobalError (src/App.tsx lines 118-132) -/

/-- First error group of handleGlobalError: key problems. -/
def msgKeyError (msg : String) : Bool :=
  strIncludes msg "Requested entity was not found" || strIncludes msg "API_KEY" ||
    strIncludes msg "401" || strIncludes msg "403"

/-- Second error group of handleGlobalError: internal errors. -/
def msgInternalError (msg : String) : Bool :=
  strIncludes msg "500" || strIncludes msg "INTERNAL"

/-- What handleGlobalError does: the error text it sets, the new value of
hasKey when it changes it, and its boolean result. -/
structure ErrorOutcome where
  errorMsg : String
  hasKeySet : Option Bool
  handled : Bool
deriving DecidableEq, Repr

/-- handleGlobalError of src/App.tsx.  An absent e.message arrives here as
the empty string, matching the msg fallback of the source. -/
def handleGlobalError (msg : String) : ErrorOutcome :=
  if msgKeyError msg then
    ⟨"API Key invalid or missing. Please check your credentials.", some false, true⟩
  else if msgInternalError msg then
    ⟨"Internal error (500). Please re-select your key.", some false, true⟩
  else
    ⟨if msg = "" then "An unexpected error occurred." else msg, none, false⟩

/-! ### TourService.createStoryboards (geminiService.ts) -/

/-- One record of the JSON array the model returns to createStoryboards. -/
structure SceneRecord where
  timestamp : String
  visualPrompt : String
  narration : String
deriving DecidableEq, Repr

/-- The scene built for the record at position i:
scenes.map((s, i) => ({...s, id, status, screenshotIndex})) of the source. -/
def mkScene (screenshots : List String) (i : Nat) (s : SceneRecord) : Scene :=
  { id := "scene-" ++ toString i
    timestamp := s.timestamp
    visualPrompt := s.visualPrompt
    narration := s.narration
    videoUrl := none
    audioUrl := none
    status := SceneStatus.pending
    screenshotIndex := if i < screenshots.length then some i else none }

/-- The indexed map of createStoryboards, with the running index explicit. -/
def mkScenesFrom (screenshots : List String) : Nat → List SceneRecord → List Scene
  | _, [] => []
  | i, s :: rest => mkScene screenshots i s :: mkScenesFrom screenshots (i + 1) rest

/-- createStoryboards of geminiService.ts applied to the parsed response
records (the network call and JSON parsing are the environment). -/
def createStoryboards (records : List SceneRecord) (screenshots : List String) : List Scene :=
  mkScenesFrom screenshots 0 records

/-! ### handleEditorVideoUpload and removeClip (src/App.tsx) -/

/-- The clip handleEditorVideoUpload pushes for one file. -/
def mkClip (f : UploadedFile) : EditorClip :=
  { id := f.randomId
    file := f
    previewUrl := f.objectUrl
    duration := f.duration
    narration := none
    audioUrl := none
    analysis := none
    status := ClipStatus.idle }

/-- handleEditorVideoUpload of src/App.tsx lines 274-297: appends the new
clips and clears isRendered. -/
def handleEditorVideoUpload (files : List UploadedFile) (st : EditorState) : EditorState :=
  { st with clips := st.clips ++ files.map mkClip, isRendered := false }

/-- removeClip of src/App.tsx lines 343-349. -/
def removeClip (id : String) (st : EditorState) : EditorState :=
  { st with clips := st.clips.filter (fun c => c.id ≠ id), isRendered := false }

/-- totalDuration of src/App.tsx lines 77-79. -/
def totalDuration (st : EditorState) : ℚ :=
  st.clips.foldl (fun acc c => acc + c.duration) 0

/-- MIN_DURATION of src/App.tsx line 33. -/
def MIN_DURATION : ℚ := 30

/-! ### startGeneration (src/App.tsx lines 232-271)

The remote calls issued during one run are modelled by GenEnv: the parsed
storyboard response (or the error createStoryboards throws), and for the
scene at each loop index the outcome of generateSceneVideo and of
generateNarration.  Each setState call of the source emits one state into
the returned trace; the head of the trace is the state before the run. -/

structure GenEnv where
  storyboard : Except String (List SceneRecord)
  videoResult : Nat → Except String String
  narrationResult : Nat → Except String String

/-- The pair of awaits inside the scene loop: generateSceneVideo first,
generateNarration second, the first error thrown wins. -/
def sceneCalls (env : GenEnv) (i : Nat) : Except String (String × String) :=
  match env.videoResult i with
  | Except.error e => Except.error e
  | Except.ok v =>
    match env.narrationResult i with
    | Except.error e => Except.error e
    | Except.ok a => Except.ok (v, a)

/-- The scene loop of startGeneration.  done holds the already handled
scenes, i is the loop index, and the remaining scenes are processed in
order.  Returns the emitted states, the state after the loop, and whether
a handled (fatal) error made the function return early. -/
def genGo (env : GenEnv) (base : GenerationState) (done : List Scene) (i : Nat) :
    List Scene → List GenerationState × GenerationState × Bool
  | [] => ([], { base with scenes := done }, false)
  | s :: rest =>
    let s1 := { s with status := SceneStatus.generating }
    let stA := { base with scenes := done ++ s1 :: rest, progress := 30 + i * 10 }
    match sceneCalls env i with
    | Except.ok (v, a) =>
      let s2 := { s1 with videoUrl := some v, audioUrl := some a,
                          status := SceneStatus.completed }
      let stB := { stA with scenes := done ++ s2 :: rest }
      let r := genGo env { base with progress := 30 + i * 10 } (done ++ [s2]) (i + 1) rest
      (stA :: stB :: r.1, r.2)
    | Except.error msg =>
      if (handleGlobalError msg).handled then ([stA], stA, true)
      else
        let s2 := { s1 with status := SceneStatus.failed }
        let stB := { stA with scenes := done ++ s2 :: rest }
        let r := genGo env { base with progress := 30 + i * 10 } (done ++ [s2]) (i + 1) rest
        (stA :: stB :: r.1, r.2)

/-- startGeneration of src/App.tsx.  apiReady is the isApiReady guard of
line 233; the returned list is the sequence of values the state variable
takes, beginning with the state before the call. -/
def startGeneration (apiReady : Bool) (inp : AppInput) (env : GenEnv)
    (st0 : GenerationState) : List GenerationState :=
  if apiReady = false then [st0]
  else if inp.name = "" ∨ inp.description = "" then [st0]
  else
    match env.storyboard with
    | Except.error _ =>
      [st0, { st0 with step := Step.processing, progress := 10 },
        { st0 with step := Step.input, progress := 10 }]
    | Except.ok records =>
      let storyboard := createStoryboards records inp.screenshots
      let st1 := { st0 with step := Step.processing, progress := 10 }
      let st2 := { st1 with step := Step.generating, scenes := storyboard, progress := 30 }
      let r := genGo env st2 [] 0 storyboard
      if r.2.2 then st0 :: st1 :: st2 :: r.1
      else st0 :: st1 :: st2 :: r.1 ++ [{ r.2.1 with step := Step.final, progress := 100 }]

/-! ### TourService.generateSceneVideo (geminiService.ts) -/

/-- A long-running video operation as seen by the polling loop. -/
structure VideoOp where
  done : Bool
  uri : Option String
deriving DecidableEq, Repr

/-- Environment of one generateSceneVideo call: the operation returned by
ai.models.generateVideos, the successive results of
ai.operations.getVideosOperation, and the object URL produced by the
fetch of the download link plus URL.createObjectURL. -/
structure VideoEnv where
  initialOp : VideoOp
  polls : List VideoOp
  download : String → String

inductive VideoOutcome where
  | ok (url : String)
  | err (msg : String)
  | outOfPolls
deriving DecidableEq, Repr

/-- What happens after the loop: take the uri of the done operation,
throw when it is absent, download otherwise. -/
def finishOp (env : VideoEnv) (op : VideoOp) : VideoOutcome :=
  match op.uri with
  | some link => VideoOutcome.ok (env.download link)
  | none => VideoOutcome.err "Video generation failed - no URI"

/-- The while loop of generateSceneVideo: while the operation is not done,
sleep 8000 ms and poll again.  The second component records the
milliseconds slept before each getVideosOperation call; outOfPolls marks
the environment running out of modelled poll results, i.e. the loop still
running past them. -/
def pollSceneVideo (env : VideoEnv) : VideoOp → List VideoOp → VideoOutcome × List Nat
  | op, polls =>
    if op.done then (finishOp env op, [])
    else
      match polls with
      | [] => (VideoOutcome.outOfPolls, [])
      | p :: rest =>
        let r := pollSceneVideo env p rest
        (r.1, 8000 :: r.2)

/-- generateSceneVideo of geminiService.ts lines 106-137. -/
def generateSceneVideo (env : VideoEnv) : VideoOutcome × List Nat :=
  pollSceneVideo env env.initialOp env.polls

/-! ### processEditorClips (src/App.tsx lines 299-341)

EditorEnv gives, for the clip at each loop index, the outcome of
analyzeVideoClip and of generateNarration, and the outcome of the final
generateYouTubeMetadata call. -/

structure EditorEnv where
  analyzeResult : Nat → Except String (String × String)
  audioResult : Nat → Except String String
  metadataResult : Except String YouTubeMetadata

/-- The clip loop of processEditorClips.  voice is the captured
editorState.includeVoiceover (constant during the run), done the already
handled prefix, i the loop index.  Returns the clips lists passed to
setEditorState inside the loop, the final clips list (after the in-place
idle reset when a call throws), and whether a call threw. -/
def procGo (env : EditorEnv) (voice : Bool) (done : List EditorClip) (i : Nat) :
    List EditorClip → List (List EditorClip) × List EditorClip × Bool
  | [] => ([], done, false)
  | c :: rest =>
    if c.status = ClipStatus.ready then
      procGo env voice (done ++ [c]) (i + 1) rest
    else
      let c1 := { c with status := ClipStatus.analyzing }
      let emit1 := done ++ c1 :: rest
      match env.analyzeResult i with
      | Except.error _ =>
        ([emit1], done ++ { c1 with status := ClipStatus.idle } :: rest, true)
      | Except.ok (analysisText, narrText) =>
        let c2 := { c1 with analysis := some analysisText, narration := some narrText }
        if voice then
          let c3 := { c2 with status := ClipStatus.generatingAudio }
          let emit2 := done ++ c3 :: rest
          match env.audioResult i with
          | Except.error _ =>
            ([emit1, emit2], done ++ { c3 with status := ClipStatus.idle } :: rest, true)
          | Except.ok audio =>
            let c4 := { c3 with audioUrl := some audio, status := ClipStatus.ready }
            let emit3 := done ++ c4 :: rest
            let r := procGo env voice (done ++ [c4]) (i + 1) rest
            (emit1 :: emit2 :: emit3 :: r.1, r.2)
        else
          let c4 := { c2 with status := ClipStatus.ready }
          let emit3 := done ++ c4 :: rest
          let r := procGo env voice (done ++ [c4]) (i + 1) rest
          (emit1 :: emit3 :: r.1, r.2)

/-- processEditorClips of src/App.tsx.  The returned list is the sequence
of values editorState takes, beginning with the state before the call.
On a thrown error the outer catch reports it through handleGlobalError
and clears isProcessing; the idle reset of the failing clip reaches the
final state through the shared clip objects of the source. -/
def processEditorClips (apiReady : Bool) (env : EditorEnv) (st : EditorState) :
    List EditorState :=
  if apiReady = false then [st]
  else if st.clips.length = 0 then [st]
  else
    let stBase := { st with isProcessing := true }
    let r := procGo env st.includeVoiceover [] 0 st.clips
    let emits := r.1.map fun cl => { stBase with clips := cl }
    if r.2.2 then
      st :: stBase :: emits ++ [{ stBase with clips := r.2.1, isProcessing := false }]
    else
      match env.metadataResult with
      | Except.error _ =>
        st :: stBase :: emits ++ [{ stBase with clips := r.2.1, isProcessing := false }]
      | Except.ok m =>
        st :: stBase :: emits ++
          [{ stBase with clips := r.2.1, isProcessing := false, youtubeMetadata := some m }]

/-- The editor state at the end of a processEditorClips run. -/
def processFinal (apiReady : Bool) (env : EditorEnv) (st : EditorState) : EditorState :=
  (processEditorClips apiReady env st).getLastD st

/-! ### handleRenderProject and handleYouTubePublish (src/App.tsx lines 148-214)

Both simulated engines run stage loops whose inner iterations advance a
progress accumulator by Math.random() times a factor, capped at 99, and
display its floor; after the last stage the displayed progress is set to
100.  The wall clock decides how many inner iterations each stage gets,
so the environment supplies the Math.random draws of stage k as a list
draws k whose length is that iteration count. -/

/-- The component state these two handlers touch. -/
structure StudioState where
  editor : EditorState
  errorMsg : Option String
  renderProgress : ℤ
  renderStage : String
  isUploading : Bool
  uploadProgress : ℤ
  uploadStage : String
  isUploadComplete : Bool
deriving DecidableEq, Repr

/-- The stages array of handleRenderProject (message, duration ms). -/
def renderStages : List (String × Nat) :=
  [("Optimizing source assets...", 1200),
   ("Encoding timeline segments...", 2500),
   ("Layering AI narration tracks...", 2000),
   ("Applying cinematic transitions...", 1500),
   ("Stitching Master Project (MP4/H.264)...", 3000)]

/-- The stages array of handleYouTubePublish. -/
def uploadStages : List (String × Nat) :=
  [("Initializing YouTube Data API...", 1500),
   ("Pre-flight master file check...", 1000),
   ("Syncing AI-Optimized Metadata...", 2000),
   ("Transferring Master Video Project...", 4000),
   ("Finalizing Broadcast Processing...", 1500)]

/-- The inner while loop of one stage: for each random draw r the
accumulator becomes min (cur + r * factor) 99 and its floor is shown. -/
def innerLoop (factor : ℚ) : List ℚ → ℚ → List ℤ × ℚ
  | [], cur => ([], cur)
  | r :: rs, cur =>
    let c := min (cur + r * factor) 99
    let t := innerLoop factor rs c
    (Int.floor c :: t.1, t.2)

/-- The for-of loop over the stages; stage k consumes the draws of
draws k.  Stage messages do not influence the progress values. -/
def runStages (factor : ℚ) (draws : Nat → List ℚ) :
    List (String × Nat) → Nat → ℚ → List ℤ × ℚ
  | [], _, cur => ([], cur)
  | _ :: rest, k, cur =>
    let t := innerLoop factor (draws k) cur
    let u := runStages factor draws rest (k + 1) t.2
    (t.1 ++ u.1, u.2)

/-- handleRenderProject of src/App.tsx lines 148-179, including the
completion callback of its setTimeout.  Returns the state after the run
and the sequence of values shown as renderProgress (the initial 0, the
loop values, the final 100); when the duration guard fails it returns
the state untouched and shows nothing. -/
def handleRenderProject (ui : StudioState) (draws : Nat → List ℚ) :
    StudioState × List ℤ :=
  if totalDuration ui.editor < MIN_DURATION then (ui, [])
  else
    let r := runStages (9 / 5 : ℚ) draws renderStages 0 0
    let masterUrl := ui.editor.clips.head?.map (fun c => c.previewUrl)
    let ed := { ui.editor with
                  isRendering := false, isRendered := true,
                  combinedVideoUrl := masterUrl }
    ({ ui with
        editor := ed,
        renderProgress := 100,
        renderStage := "Export Successful!" },
      0 :: r.1 ++ [100])

/-- handleYouTubePublish of src/App.tsx lines 182-214, including the
completion callback of its setTimeout.  Returns the state after the run
and the sequence of values shown as uploadProgress. -/
def handleYouTubePublish (ui : StudioState) (draws : Nat → List ℚ) :
    StudioState × List ℤ :=
  if totalDuration ui.editor < MIN_DURATION ∨ ui.editor.isRendered = false then
    let msg := "Assembly required: Please render your project before publishing."
    (if ui.editor.isRendered = false then { ui with errorMsg := some msg } else ui, [])
  else
    let r := runStages (5 / 2 : ℚ) draws uploadStages 0 0
    ({ ui with
        isUploading := true,
        uploadProgress := 100,
        uploadStage := "Broadcast Ready!",
        isUploadComplete := true },
      0 :: r.1 ++ [100])

/-! ### The operations that rewrite the editor state -/

/-- A StudioState carrying just an editor state, for running
handleRenderProject inside the editor-level transition system. -/
def plainStudio (st : EditorState) : StudioState :=
  { editor := st, errorMsg := none, renderProgress := 0, renderStage := "",
    isUploading := false, uploadProgress := 0, uploadStage := "",
    isUploadComplete := false }

/-- One user-triggered operation on the editor state.  handleYouTubePublish
never writes editorState, so it has no constructor here. -/
inductive EditorAction where
  | upload (files : List UploadedFile)
  | removeId (id : String)
  | process (apiReady : Bool) (env : EditorEnv)
  | render (draws : Nat → List ℚ)
  | toggleVoice

/-- The effect of one operation on the editor state, each case taken from
the corresponding handler of src/App.tsx. -/
def editorStep (a : EditorAction) (st : EditorState) : EditorState :=
  match a with
  | EditorAction.upload files => handleEditorVideoUpload files st
  | EditorAction.removeId id => removeClip id st
  | EditorAction.process ready env => processFinal ready env st
  | EditorAction.render draws => (handleRenderProject (plainStudio st) draws).1.editor
  | EditorAction.toggleVoice => { st with includeVoiceover := !st.includeVoiceover }

/-- The identities of the clips of a state, in order. -/
def clipIds (st : EditorState) : List String :=
  st.clips.map (fun c => c.id)

/-! ### Collapsing consecutive repetitions, for stating visit orders -/

/-- Removes consecutive duplicates, keeping the first of each block. -/
def squashRepeats {α : Type} [DecidableEq α] : List α → List α
  | [] => []
  | [a] => [a]
  | a :: b :: rest =>
    if a = b then squashRepeats (b :: rest) else a :: squashRepeats (b :: rest)

/-- The status of the clip at position i, as the trace projections use it. -/
def clipStatusAt (st : EditorState) (i : Nat) : Option ClipStatus :=
  (st.clips[i]?).map (fun c => c.status)

/-- The sequence of statuses the clip at position i passes through over a
trace, consecutive repetitions collapsed. -/
def statusSeqAt (trace : List EditorState) (i : Nat) : List (Option ClipStatus) :=
  squashRepeats (trace.map (fun s => clipStatusAt s i))

/-- The status of the scene at position j of a generation state. -/
def sceneStatusAt (st : GenerationState) (j : Nat) : Option SceneStatus :=
  (st.scenes[j]?).map (fun s => s.status)

/-! ### List helpers -/

lemma getElem?_append_offset {α : Type} (l m : List α) (j : Nat) :
    (l ++ m)[l.length + j]? = m[j]? := by
  rw [List.getElem?_append_right (by omega)]
  congr 1
  omega

lemma getLastD_append_singleton {α : Type} (l : List α) (x d : α) :
    (l ++ [x]).getLastD d = x := by
  have h : (l ++ [x]).getLast? = some x := List.getLast?_concat l
  simp [List.getLastD_eq_getLast?, h]

lemma getLast?_cons_ne {α : Type} (a : α) (l : List α) (h : l ≠ []) :
    (a :: l).getLast? = l.getLast? := by
  cases l with
  | nil => exact absurd rfl h
  | cons b t => simp [List.getLast?_cons_cons]

lemma getLast?_getD_cons_append {α : Type} (a d x : α) (l : List α) :
    ((a :: (l ++ [x])).getLast?).getD d = x := by
  rw [show a :: (l ++ [x]) = (a :: l) ++ [x] by simp, List.getLast?_concat]
  rfl

/-! ### squashRepeats helpers -/

lemma squash_cons_eq {α : Type} [DecidableEq α] (a : α) (l : List α) :
    squashRepeats (a :: a :: l) = squashRepeats (a :: l) := by
  simp [squashRepeats]

lemma squash_cons_ne {α : Type} [DecidableEq α] (a b : α) (l : List α) (h : a ≠ b) :
    squashRepeats (a :: b :: l) = a :: squashRepeats (b :: l) := by
  simp [squashRepeats, h]

lemma squash_skip_const {α : Type} [DecidableEq α] (a : α) :
    ∀ l t : List α, (∀ x ∈ l, x = a) →
      squashRepeats (a :: (l ++ t)) = squashRepeats (a :: t)
  | [], _, _ => rfl
  | x :: l, t, h => by
    have hx : x = a := h x (by simp)
    subst hx
    have step : squashRepeats (x :: x :: (l ++ t)) = squashRepeats (x :: (l ++ t)) :=
      squash_cons_eq x (l ++ t)
    calc squashRepeats (x :: ((x :: l) ++ t)) = squashRepeats (x :: (l ++ t)) := step
      _ = squashRepeats (x :: t) := squash_skip_const x l t (fun y hy => h y (by simp [hy]))

lemma squash_const {α : Type} [DecidableEq α] (a : α) (l : List α)
    (h : ∀ x ∈ l, x = a) : squashRepeats (a :: l) = [a] := by
  have := squash_skip_const a l [] h
  simpa using this

lemma squash_shape {α : Type} [DecidableEq α] (a b c d : α) (l : List α)
    (hab : a ≠ b) (hbc : b ≠ c) (hcd : c ≠ d) (hl : ∀ y ∈ l, y = c) :
    squashRepeats (a :: b :: c :: l ++ [d]) = [a, b, c, d] := by
  rw [show (a :: b :: c :: l) ++ [d] = a :: (b :: ((c :: (l ++ [d])) : List α)) by simp]
  rw [squash_cons_ne a b _ hab, squash_cons_ne b c _ hbc,
    squash_skip_const c l [d] hl, squash_cons_ne c d _ hcd]
  rfl

/-! ### C3: createStoryboards -/

lemma mkScenesFrom_length (ss : List String) :
    ∀ (i : Nat) (rs : List SceneRecord), (mkScenesFrom ss i rs).length = rs.length
  | _, [] => rfl
  | i, _ :: rest => by simp [mkScenesFrom, mkScenesFrom_length ss (i + 1) rest]

lemma mkScenesFrom_getElem? (ss : List String) :
    ∀ (rs : List SceneRecord) (i j : Nat),
      (mkScenesFrom ss i rs)[j]? = (rs[j]?).map (mkScene ss (i + j))
  | [], _, _ => by simp [mkScenesFrom]
  | s :: rest, i, 0 => by simp [mkScenesFrom]
  | s :: rest, i, j + 1 => by
    have ih := mkScenesFrom_getElem? ss rest (i + 1) j
    have e : i + 1 + j = i + (j + 1) := by omega
    simp only [mkScenesFrom, List.getElem?_cons_succ]
    rw [ih, e]

/-- C3: for a model response parsed as n scene records, createStoryboards
returns n scenes in the order of the records; the scene at position i
keeps the timestamp, visualPrompt and narration of its record, has id
scene-i and status pending, and its screenshotIndex is i when i is below
the number of uploaded screenshots and undefined otherwise. -/
theorem createStoryboards_spec (records : List SceneRecord) (screenshots : List String) :
    (createStoryboards records screenshots).length = records.length ∧
    ∀ i s, records[i]? = some s →
      ∃ sc, (createStoryboards records screenshots)[i]? = some sc ∧
        sc.timestamp = s.timestamp ∧ sc.visualPrompt = s.visualPrompt ∧
        sc.narration = s.narration ∧ sc.id = "scene-" ++ toString i ∧
        sc.status = SceneStatus.pending ∧
        sc.screenshotIndex = (if i < screenshots.length then some i else none) := by
  constructor
  · exact mkScenesFrom_length screenshots 0 records
  · intro i s hs
    refine ⟨mkScene screenshots i s, ?_, rfl, rfl, rfl, rfl, rfl, rfl⟩
    have := mkScenesFrom_getElem? screenshots records 0 i
    simpa [createStoryboards, hs] using this

/-- Witness for C3 at a concrete record list. -/
theorem createStoryboards_spec_witness :
    ∃ sc, (createStoryboards [⟨"0:00 - 0:15", "pan over UI", "welcome"⟩] ["shot1"])[0]? =
        some sc ∧
      sc.timestamp = "0:00 - 0:15" ∧ sc.visualPrompt = "pan over UI" ∧
      sc.narration = "welcome" ∧ sc.id = "scene-" ++ toString 0 ∧
      sc.status = SceneStatus.pending ∧
      sc.screenshotIndex = (if 0 < ["shot1"].length then some 0 else none) :=
  (createStoryboards_spec [⟨"0:00 - 0:15", "pan over UI", "welcome"⟩] ["shot1"]).2 0 _ rfl

/-! ### C6: handleEditorVideoUpload -/

/-- C6: handleEditorVideoUpload keeps the existing clips unchanged,
appends the new clips after them in file order, and every appended clip
starts idle with the duration read from the file metadata, its preview
URL, and no narration, analysis or audio. -/
theorem handleEditorVideoUpload_spec (files : List UploadedFile) (st : EditorState) :
    (handleEditorVideoUpload files st).clips.take st.clips.length = st.clips ∧
    (handleEditorVideoUpload files st).clips.drop st.clips.length = files.map mkClip ∧
    ∀ f ∈ files,
      (mkClip f).status = ClipStatus.idle ∧ (mkClip f).duration = f.duration ∧
      (mkClip f).previewUrl = f.objectUrl ∧ (mkClip f).narration = none ∧
      (mkClip f).analysis = none ∧ (mkClip f).audioUrl = none := by
  refine ⟨?_, ?_, ?_⟩
  · simp [handleEditorVideoUpload]
  · simp [handleEditorVideoUpload]
  · intro f _
    exact ⟨rfl, rfl, rfl, rfl, rfl, rfl⟩

/-- Witness for C6 at a concrete file list. -/
theorem handleEditorVideoUpload_spec_witness :
    (mkClip ⟨"abc123xyz", "blob:demo", 12⟩).status = ClipStatus.idle ∧
    (mkClip ⟨"abc123xyz", "blob:demo", 12⟩).duration = (12 : ℚ) ∧
    (mkClip ⟨"abc123xyz", "blob:demo", 12⟩).previewUrl = "blob:demo" ∧
    (mkClip ⟨"abc123xyz", "blob:demo", 12⟩).narration = none ∧
    (mkClip ⟨"abc123xyz", "blob:demo", 12⟩).analysis = none ∧
    (mkClip ⟨"abc123xyz", "blob:demo", 12⟩).audioUrl = none :=
  (handleEditorVideoUpload_spec [⟨"abc123xyz", "blob:demo", 12⟩]
      ⟨[], false, true, false, false, none, none⟩).2.2 _ (by simp)

/-! ### C4: generateSceneVideo polling -/

lemma pollSceneVideo_first_done (env : VideoEnv) :
    ∀ (k : Nat) (op : VideoOp) (polls : List VideoOp) (opk : VideoOp),
      (op :: polls)[k]? = some opk → opk.done = true →
      (∀ j, j < k → ∀ opj, (op :: polls)[j]? = some opj → opj.done = false) →
      pollSceneVideo env op polls = (finishOp env opk, List.replicate k 8000)
  | 0, op, polls, opk, hk, hdone, _ => by
    simp only [List.getElem?_cons_zero, Option.some.injEq] at hk
    subst hk
    unfold pollSceneVideo
    simp [hdone]
  | k + 1, op, polls, opk, hk, hdone, hj => by
    have hop : op.done = false := hj 0 (by omega) op (by simp)
    rw [List.getElem?_cons_succ] at hk
    cases polls with
    | nil => simp at hk
    | cons p rest =>
      have ih := pollSceneVideo_first_done env k p rest opk hk hdone
        (fun j hjk opj hopj => hj (j + 1) (by omega) opj (by simpa using hopj))
      unfold pollSceneVideo
      simp [hop, ih, List.replicate_succ]

/-- C4: generateSceneVideo sleeps a fixed 8000 ms before each
getVideosOperation call and leaves the loop exactly at the first
operation reported done: when that operation is at position k of the
operation sequence, exactly k sleeps of 8000 ms happen; when it carries a
video URI the call returns the object URL of the downloaded video, and
when it carries none the call throws. -/
theorem generateSceneVideo_spec (env : VideoEnv) (k : Nat) (opk : VideoOp)
    (hk : (env.initialOp :: env.polls)[k]? = some opk) (hdone : opk.done = true)
    (hfirst : ∀ j, j < k → ∀ opj, (env.initialOp :: env.polls)[j]? = some opj →
      opj.done = false) :
    (generateSceneVideo env).2 = List.replicate k 8000 ∧
    (generateSceneVideo env).1 ≠ VideoOutcome.outOfPolls ∧
    (∀ link, opk.uri = some link →
      (generateSceneVideo env).1 = VideoOutcome.ok (env.download link)) ∧
    (opk.uri = none →
      (generateSceneVideo env).1 = VideoOutcome.err "Video generation failed - no URI") := by
  have h := pollSceneVideo_first_done env k env.initialOp env.polls opk hk hdone hfirst
  have h1 : (generateSceneVideo env).1 = finishOp env opk := by
    simp [generateSceneVideo, h]
  have h2 : (generateSceneVideo env).2 = List.replicate k 8000 := by
    simp [generateSceneVideo, h]
  refine ⟨h2, ?_, ?_, ?_⟩
  · rw [h1]
    cases huri : opk.uri <;> simp [finishOp, huri]
  · intro link hlink
    rw [h1]
    simp [finishOp, hlink]
  · intro hnone
    rw [h1]
    simp [finishOp, hnone]

/-- Witness for C4: a run whose initial operation is pending and whose
second poll is done with a URI. -/
theorem generateSceneVideo_spec_witness :
    (generateSceneVideo
        ⟨⟨false, none⟩, [⟨false, none⟩, ⟨true, some "gs-link"⟩],
          fun s => "blob-" ++ s⟩).2 = List.replicate 2 8000 ∧
    (generateSceneVideo
        ⟨⟨false, none⟩, [⟨false, none⟩, ⟨true, some "gs-link"⟩],
          fun s => "blob-" ++ s⟩).1 = VideoOutcome.ok ("blob-" ++ "gs-link") := by
  have h := generateSceneVideo_spec
    ⟨⟨false, none⟩, [⟨false, none⟩, ⟨true, some "gs-link"⟩], fun s => "blob-" ++ s⟩
    2 ⟨true, some "gs-link"⟩ rfl rfl
    (by
      intro j hj opj hop
      interval_cases j <;>
        simp only [List.getElem?_cons_zero, List.getElem?_cons_succ,
          Option.some.injEq] at hop <;>
        cases hop <;> rfl)
  exact ⟨h.1, h.2.2.1 "gs-link" rfl⟩

/-! ### C9: isRendered is cleared by every clip-list rewrite -/

lemma procGo_ids (env : EditorEnv) (voice : Bool) :
    ∀ (l done : List EditorClip) (i : Nat),
      (procGo env voice done i l).2.1.map (fun c => c.id) =
        done.map (fun c => c.id) ++ l.map (fun c => c.id)
  | [], done, i => by simp [procGo]
  | c :: rest, done, i => by
    have ih := procGo_ids env voice rest
    by_cases hr : c.status = ClipStatus.ready
    · simp [procGo, hr, ih]
    · cases ha : env.analyzeResult i with
      | error e => simp [procGo, hr, ha]
      | ok p =>
        obtain ⟨ax, nx⟩ := p
        by_cases hv : voice = true
        · subst hv
          cases hau : env.audioResult i with
          | error e => simp [procGo, hr, ha, hau]
          | ok y => simp [procGo, hr, ha, hau, ih]
        · have hv' : voice = false := by simpa using hv
          subst hv'
          simp [procGo, hr, ha, ih]

/-- The final state of a processEditorClips run: either nothing ran, or
the clips come from the loop, isProcessing is cleared, and only
youtubeMetadata may additionally change. -/
lemma processFinal_shape (apiReady : Bool) (env : EditorEnv) (st : EditorState) :
    processFinal apiReady env st = st ∨
    ∃ meta, processFinal apiReady env st =
      { st with clips := (procGo env st.includeVoiceover [] 0 st.clips).2.1,
                isProcessing := false, youtubeMetadata := meta } := by
  unfold processFinal processEditorClips
  by_cases hr : apiReady = false
  · left
    simp [hr]
  · by_cases hz : st.clips.length = 0
    · left
      simp [hr, hz]
    · right
      by_cases hth : (procGo env st.includeVoiceover [] 0 st.clips).2.2 = true
      · refine ⟨st.youtubeMetadata, ?_⟩
        simp [hr, hz, hth, getLast?_getD_cons_append]
      · cases hm : env.metadataResult with
        | error e =>
          refine ⟨st.youtubeMetadata, ?_⟩
          simp [hr, hz, hth, hm, getLast?_getD_cons_append]
        | ok m =>
          refine ⟨some m, ?_⟩
          simp [hr, hz, hth, hm, getLast?_getD_cons_append]

/-- C9: appending clips through handleEditorVideoUpload and removing a
clip through removeClip both clear isRendered; across every modelled
editor operation, a step that leaves isRendered true is either the render
completion itself or an operation that keeps the clip identity list
unchanged and found isRendered already true. -/
theorem editor_isRendered_invariant :
    (∀ files st, (handleEditorVideoUpload files st).isRendered = false) ∧
    (∀ id st, (removeClip id st).isRendered = false) ∧
    (∀ (a : EditorAction) (st : EditorState), (editorStep a st).isRendered = true →
      (∃ draws, a = EditorAction.render draws) ∨
      (st.isRendered = true ∧ clipIds (editorStep a st) = clipIds st)) := by
  refine ⟨fun files st => rfl, fun id st => rfl, ?_⟩
  intro a st h
  cases a with
  | upload files => exact absurd h (by simp [editorStep, handleEditorVideoUpload])
  | removeId id => exact absurd h (by simp [editorStep, removeClip])
  | render draws => exact Or.inl ⟨draws, rfl⟩
  | toggleVoice =>
    refine Or.inr ⟨?_, rfl⟩
    simpa [editorStep] using h
  | process ready env =>
    refine Or.inr ⟨?_, ?_⟩
    · rcases processFinal_shape ready env st with hs | ⟨meta, hs⟩
      · simpa [editorStep, hs] using h
      · simp only [editorStep] at h
        rw [hs] at h
        simpa using h
    · rcases processFinal_shape ready env st with hs | ⟨meta, hs⟩
      · simp [editorStep, hs]
      · simp only [editorStep, clipIds]
        rw [hs]
        simpa [clipIds] using procGo_ids env st.includeVoiceover st.clips [] 0

/-- Witness for C9: a toggle that leaves isRendered true neither is a
render completion nor touches the clip list. -/
theorem editor_isRendered_invariant_witness :
    (∃ draws, EditorAction.toggleVoice = EditorAction.render draws) ∨
    ((⟨[], false, true, false, true, none, none⟩ : EditorState).isRendered = true ∧
      clipIds (editorStep EditorAction.toggleVoice
        ⟨[], false, true, false, true, none, none⟩) =
        clipIds ⟨[], false, true, false, true, none, none⟩) :=
  editor_isRendered_invariant.2.2 EditorAction.toggleVoice
    ⟨[], false, true, false, true, none, none⟩ rfl

/-! ### C10: duration and render guards -/

/-- C10: handleRenderProject returns untouched when the clip durations
sum below MIN_DURATION; handleYouTubePublish starts its upload
simulation exactly when the duration reaches 30 seconds and the project
is rendered, and when the project is not rendered it only sets the
Assembly required error message. -/
theorem duration_guards :
    (∀ (ui : StudioState) (draws : Nat → List ℚ),
      totalDuration ui.editor < MIN_DURATION →
        handleRenderProject ui draws = (ui, [])) ∧
    (∀ (ui : StudioState) (draws : Nat → List ℚ),
      (handleYouTubePublish ui draws).2 ≠ [] ↔
        (MIN_DURATION ≤ totalDuration ui.editor ∧ ui.editor.isRendered = true)) ∧
    (∀ (ui : StudioState) (draws : Nat → List ℚ),
      ui.editor.isRendered = false →
        handleYouTubePublish ui draws =
          ({ ui with errorMsg := some "Assembly required: Please render your project before publishing." }, [])) := by
  refine ⟨?_, ?_, ?_⟩
  · intro ui draws h
    simp [handleRenderProject, h]
  · intro ui draws
    by_cases hg : totalDuration ui.editor < MIN_DURATION ∨ ui.editor.isRendered = false
    · have h2 : (handleYouTubePublish ui draws).2 = [] := by
        unfold handleYouTubePublish
        simp [hg]
      simp only [h2]
      constructor
      · intro h
        exact absurd rfl h
      · rintro ⟨hd, hr⟩
        rcases hg with hg | hg
        · exact absurd hd (not_le.mpr hg)
        · rw [hr] at hg
          exact absurd hg (by simp)
    · push_neg at hg
      obtain ⟨hd, hr⟩ := hg
      have h2 : (handleYouTubePublish ui draws).2 =
          0 :: (runStages (5 / 2 : ℚ) draws uploadStages 0 0).1 ++ [100] := by
        unfold handleYouTubePublish
        rw [if_neg (by push_neg; exact ⟨hd, hr⟩)]
      rw [h2]
      simp only [ne_eq, List.cons_append, reduceCtorEq, not_false_eq_true, true_iff]
      exact ⟨hd, by simpa using hr⟩
  · intro ui draws h
    unfold handleYouTubePublish
    rw [if_pos (Or.inr h)]
    simp [h]

/-! ### C7: the simulated progress is monotone, capped at 99, ending at 100 -/

lemma chain_le_glue (a b : ℤ) (l m : List ℤ)
    (h1 : List.Chain' (· ≤ ·) (a :: l)) (h2 : (a :: l).getLast? = some b)
    (h3 : List.Chain' (· ≤ ·) (b :: m)) : List.Chain' (· ≤ ·) (a :: l ++ m) := by
  obtain ⟨hb, hm⟩ := List.chain'_cons'.mp h3
  rw [show a :: l ++ m = (a :: l) ++ m from rfl, List.chain'_append]
  refine ⟨h1, hm, ?_⟩
  intro x hx y hy
  rw [h2] at hx
  simp only [Option.mem_def, Option.some.injEq] at hx
  subst hx
  exact hb y hy

lemma getLast?_glue {α : Type} (a b c : α) (l m : List α)
    (h1 : (a :: l).getLast? = some b) (h2 : (b :: m).getLast? = some c) :
    (a :: l ++ m).getLast? = some c := by
  cases m with
  | nil =>
    simp only [List.getLast?_singleton, Option.some.injEq] at h2
    subst h2
    simpa using h1
  | cons y m' =>
    rw [show a :: l ++ y :: m' = (a :: l) ++ y :: m' from rfl, List.getLast?_append]
    rw [List.getLast?_cons_cons] at h2
    rw [h2]
    rfl

lemma floor_le_99 (c : ℚ) (h : c ≤ 99) : Int.floor c ≤ 99 := by
  have := Int.floor_le_floor h
  have h99 : (⌊(99 : ℚ)⌋ : ℤ) = 99 := by
    rw [show (99 : ℚ) = ((99 : ℤ) : ℚ) by norm_num, Int.floor_intCast]
  omega

lemma innerLoop_bounds (factor : ℚ) (hf : 0 ≤ factor) :
    ∀ (rs : List ℚ) (cur : ℚ), (∀ r ∈ rs, 0 ≤ r) → 0 ≤ cur → cur ≤ 99 →
      List.Chain' (· ≤ ·) (Int.floor cur :: (innerLoop factor rs cur).1) ∧
      (∀ x ∈ (innerLoop factor rs cur).1, x ≤ 99) ∧
      0 ≤ (innerLoop factor rs cur).2 ∧ (innerLoop factor rs cur).2 ≤ 99 ∧
      (Int.floor cur :: (innerLoop factor rs cur).1).getLast? =
        some (Int.floor (innerLoop factor rs cur).2)
  | [], cur, _, h0, h99 =>
    ⟨List.chain'_singleton _, fun x hx => absurd hx (List.not_mem_nil x), h0, h99, rfl⟩
  | r :: rs, cur, hrs, h0, h99 => by
    have hr0 : 0 ≤ r := hrs r (by simp)
    have hcur_le : cur ≤ min (cur + r * factor) 99 :=
      le_min (le_add_of_nonneg_right (mul_nonneg hr0 hf)) h99
    have hc0 : 0 ≤ min (cur + r * factor) 99 := le_trans h0 hcur_le
    have hc99 : min (cur + r * factor) 99 ≤ 99 := min_le_right _ _
    have ih := innerLoop_bounds factor hf rs (min (cur + r * factor) 99)
      (fun x hx => hrs x (by simp [hx])) hc0 hc99
    refine ⟨?_, ?_, ?_, ?_, ?_⟩
    · exact List.Chain'.cons (Int.floor_le_floor hcur_le) ih.1
    · intro x hx
      simp only [innerLoop, List.mem_cons] at hx
      rcases hx with hx | hx
      · subst hx
        exact floor_le_99 _ hc99
      · exact ih.2.1 x hx
    · exact ih.2.2.1
    · exact ih.2.2.2.1
    · show (Int.floor cur :: Int.floor (min (cur + r * factor) 99) ::
          (innerLoop factor rs (min (cur + r * factor) 99)).1).getLast? = _
      rw [List.getLast?_cons_cons]
      exact ih.2.2.2.2

lemma runStages_bounds (factor : ℚ) (hf : 0 ≤ factor) (draws : Nat → List ℚ)
    (hd : ∀ k, ∀ r ∈ draws k, 0 ≤ r) :
    ∀ (stages : List (String × Nat)) (k : Nat) (cur : ℚ), 0 ≤ cur → cur ≤ 99 →
      List.Chain' (· ≤ ·) (Int.floor cur :: (runStages factor draws stages k cur).1) ∧
      (∀ x ∈ (runStages factor draws stages k cur).1, x ≤ 99) ∧
      0 ≤ (runStages factor draws stages k cur).2 ∧
      (runStages factor draws stages k cur).2 ≤ 99 ∧
      (Int.floor cur :: (runStages factor draws stages k cur).1).getLast? =
        some (Int.floor (runStages factor draws stages k cur).2)
  | [], k, cur, h0, h99 =>
    ⟨List.chain'_singleton _, fun x hx => absurd hx (List.not_mem_nil x), h0, h99, rfl⟩
  | stg :: rest, k, cur, h0, h99 => by
    have hin := innerLoop_bounds factor hf (draws k) cur (hd k) h0 h99
    have ih := runStages_bounds factor hf draws hd rest (k + 1)
      (innerLoop factor (draws k) cur).2 hin.2.2.1 hin.2.2.2.1
    have hsh : runStages factor draws (stg :: rest) k cur =
        ((innerLoop factor (draws k) cur).1 ++
          (runStages factor draws rest (k + 1) (innerLoop factor (draws k) cur).2).1,
          (runStages factor draws rest (k + 1) (innerLoop factor (draws k) cur).2).2) := by
      rfl
    rw [hsh]
    refine ⟨?_, ?_, ih.2.2.1, ih.2.2.2.1, ?_⟩
    · exact chain_le_glue _ _ _ _ hin.1 hin.2.2.2.2 ih.1
    · intro x hx
      rcases List.mem_append.mp hx with hx | hx
      · exact hin.2.1 x hx
      · exact ih.2.1 x hx
    · exact getLast?_glue _ _ _ _ _ hin.2.2.2.2 ih.2.2.2.2

/-- C7: in both simulated engines the shown progress is nondecreasing,
stays at most 99 while stages are still running, and becomes exactly 100
only at the very end of the run. -/
theorem progress_simulation (ui : StudioState) (draws : Nat → List ℚ)
    (hd : ∀ k, ∀ r ∈ draws k, 0 ≤ r) :
    (MIN_DURATION ≤ totalDuration ui.editor →
      List.Chain' (· ≤ ·) (handleRenderProject ui draws).2 ∧
      (∀ x ∈ (handleRenderProject ui draws).2.dropLast, x ≤ 99) ∧
      (handleRenderProject ui draws).2.getLast? = some 100) ∧
    (MIN_DURATION ≤ totalDuration ui.editor → ui.editor.isRendered = true →
      List.Chain' (· ≤ ·) (handleYouTubePublish ui draws).2 ∧
      (∀ x ∈ (handleYouTubePublish ui draws).2.dropLast, x ≤ 99) ∧
      (handleYouTubePublish ui draws).2.getLast? = some 100) := by
  have key : ∀ (factor : ℚ), 0 ≤ factor → ∀ (stages : List (String × Nat)),
      List.Chain' (· ≤ ·) (0 :: (runStages factor draws stages 0 0).1 ++ [100]) ∧
      (∀ x ∈ (0 :: (runStages factor draws stages 0 0).1 ++ [100]).dropLast, x ≤ 99) ∧
      (0 :: (runStages factor draws stages 0 0).1 ++ [100]).getLast? = some 100 := by
    intro factor hf stages
    have hb := runStages_bounds factor hf draws hd stages 0 0 le_rfl (by norm_num)
    have hz : Int.floor (0 : ℚ) = 0 := Int.floor_zero
    rw [hz] at hb
    refine ⟨?_, ?_, ?_⟩
    · refine chain_le_glue _ _ _ _ hb.1 hb.2.2.2.2 ?_
      refine List.chain'_cons.mpr ⟨?_, List.chain'_singleton _⟩
      have := floor_le_99 _ hb.2.2.2.1
      omega
    · intro x hx
      rw [show (0 : ℤ) :: (runStages factor draws stages 0 0).1 ++ [100] =
        ((0 : ℤ) :: (runStages factor draws stages 0 0).1) ++ [100] from rfl,
        List.dropLast_concat] at hx
      rcases List.mem_cons.mp hx with hx | hx
      · omega
      · exact hb.2.1 x hx
    · exact List.getLast?_concat _
  constructor
  · intro hdur
    have hg : ¬ totalDuration ui.editor < MIN_DURATION := not_lt.mpr hdur
    have hsh : (handleRenderProject ui draws).2 =
        0 :: (runStages (9 / 5 : ℚ) draws renderStages 0 0).1 ++ [100] := by
      unfold handleRenderProject
      rw [if_neg hg]
    rw [hsh]
    exact key (9 / 5) (by norm_num) renderStages
  · intro hdur hrend
    have hg : ¬ (totalDuration ui.editor < MIN_DURATION ∨
        ui.editor.isRendered = false) := by
      push_neg
      exact ⟨hdur, by simp [hrend]⟩
    have hsh : (handleYouTubePublish ui draws).2 =
        0 :: (runStages (5 / 2 : ℚ) draws uploadStages 0 0).1 ++ [100] := by
      unfold handleYouTubePublish
      rw [if_neg hg]
    rw [hsh]
    exact key (5 / 2) (by norm_num) uploadStages

/-- Witness for C7 at a concrete rendered project and draw stream. -/
theorem progress_simulation_witness :
    (List.Chain' (· ≤ ·)
        (handleRenderProject
          (plainStudio ⟨[mkClip ⟨"idw", "uw", 40⟩], false, true, false, true, none, none⟩)
          (fun _ => [1 / 2])).2 ∧
      (∀ x ∈ (handleRenderProject
          (plainStudio ⟨[mkClip ⟨"idw", "uw", 40⟩], false, true, false, true, none, none⟩)
          (fun _ => [1 / 2])).2.dropLast, x ≤ 99) ∧
      (handleRenderProject
          (plainStudio ⟨[mkClip ⟨"idw", "uw", 40⟩], false, true, false, true, none, none⟩)
          (fun _ => [1 / 2])).2.getLast? = some 100) ∧
    (List.Chain' (· ≤ ·)
        (handleYouTubePublish
          (plainStudio ⟨[mkClip ⟨"idw", "uw", 40⟩], false, true, false, true, none, none⟩)
          (fun _ => [1 / 2])).2 ∧
      (∀ x ∈ (handleYouTubePublish
          (plainStudio ⟨[mkClip ⟨"idw", "uw", 40⟩], false, true, false, true, none, none⟩)
          (fun _ => [1 / 2])).2.dropLast, x ≤ 99) ∧
      (handleYouTubePublish
          (plainStudio ⟨[mkClip ⟨"idw", "uw", 40⟩], false, true, false, true, none, none⟩)
          (fun _ => [1 / 2])).2.getLast? = some 100) := by
  have hd : ∀ k : Nat, ∀ r ∈ [(1 : ℚ) / 2], 0 ≤ r := by
    intro k r hr
    simp only [List.mem_singleton] at hr
    subst hr
    norm_num
  have hdur : MIN_DURATION ≤ totalDuration
      (⟨[mkClip ⟨"idw", "uw", 40⟩], false, true, false, true, none, none⟩ : EditorState) := by
    norm_num [totalDuration, mkClip, MIN_DURATION]
  have h := progress_simulation
    (plainStudio ⟨[mkClip ⟨"idw", "uw", 40⟩], false, true, false, true, none, none⟩)
    (fun _ => [1 / 2]) hd
  exact ⟨h.1 hdur, h.2 hdur rfl⟩

/-- Witness for C10 at a concrete short project. -/
theorem duration_guards_witness :
    handleRenderProject
        (plainStudio ⟨[mkClip ⟨"id1", "u1", 10⟩], false, true, false, false, none, none⟩)
        (fun _ => []) =
      (plainStudio ⟨[mkClip ⟨"id1", "u1", 10⟩], false, true, false, false, none, none⟩,
        []) :=
  duration_guards.1
    (plainStudio ⟨[mkClip ⟨"id1", "u1", 10⟩], false, true, false, false, none, none⟩)
    (fun _ => []) (by norm_num [totalDuration, mkClip, plainStudio, MIN_DURATION])

/-! ### C1 and C5: the generation flow -/

/-- The scene at loop index i is handled without an early return: its
calls either succeed or throw an error handleGlobalError does not treat
as fatal. -/
def nonFatalAt (env : GenEnv) (i : Nat) : Prop :=
  (∃ v a, sceneCalls env i = Except.ok (v, a)) ∨
  (∃ msg, sceneCalls env i = Except.error msg ∧ (handleGlobalError msg).handled = false)

/-- The calls of the scene at loop index i throw an error
handleGlobalError treats as fatal, making startGeneration return. -/
def fatalAt (env : GenEnv) (i : Nat) : Prop :=
  ∃ msg, sceneCalls env i = Except.error msg ∧ (handleGlobalError msg).handled = true

/-- What one non-fatal loop iteration leaves in the scene at index i. -/
def processedScene (env : GenEnv) (i : Nat) (s : Scene) : Scene :=
  match sceneCalls env i with
  | Except.ok (v, a) =>
    { s with videoUrl := some v, audioUrl := some a, status := SceneStatus.completed }
  | Except.error _ => { s with status := SceneStatus.failed }

/-- processedScene applied along a scene list, indices starting at k. -/
def mapIdxFrom (env : GenEnv) : Nat → List Scene → List Scene
  | _, [] => []
  | k, s :: rest => processedScene env k s :: mapIdxFrom env (k + 1) rest

lemma mapIdxFrom_getElem? (env : GenEnv) :
    ∀ (l : List Scene) (k j : Nat),
      (mapIdxFrom env k l)[j]? = (l[j]?).map (processedScene env (k + j))
  | [], _, _ => by simp [mapIdxFrom]
  | s :: rest, k, 0 => by simp [mapIdxFrom]
  | s :: rest, k, j + 1 => by
    have ih := mapIdxFrom_getElem? env rest (k + 1) j
    have e : k + 1 + j = k + (j + 1) := by omega
    simp only [mapIdxFrom, List.getElem?_cons_succ]
    rw [ih, e]

lemma genGo_trace_step (env : GenEnv) :
    ∀ (l : List Scene) (base : GenerationState) (done : List Scene) (i : Nat),
      ∀ x ∈ (genGo env base done i l).1, x.step = base.step
  | [], base, done, i => by simp [genGo]
  | s :: rest, base, done, i => by
    intro x hx
    cases hc : sceneCalls env i with
    | ok p =>
      obtain ⟨v, a⟩ := p
      simp only [genGo, hc, List.mem_cons] at hx
      rcases hx with rfl | rfl | hx
      · rfl
      · rfl
      · exact genGo_trace_step env rest { base with progress := 30 + i * 10 } _ _ x hx
    | error msg =>
      by_cases hh : (handleGlobalError msg).handled = true
      · simp only [genGo, hc, hh, if_true, List.mem_cons, List.not_mem_nil,
          or_false] at hx
        subst hx
        rfl
      · simp only [genGo, hc, hh, Bool.false_eq_true, if_false, List.mem_cons] at hx
        rcases hx with rfl | rfl | hx
        · rfl
        · rfl
        · exact genGo_trace_step env rest { base with progress := 30 + i * 10 } _ _ x hx

lemma genGo_pass (env : GenEnv) :
    ∀ (l : List Scene) (base : GenerationState) (done : List Scene) (k : Nat),
      (∀ j, j < l.length → nonFatalAt env (k + j)) →
      (genGo env base done k l).2.2 = false ∧
      (genGo env base done k l).2.1.scenes = done ++ mapIdxFrom env k l ∧
      (genGo env base done k l).2.1.step = base.step
  | [], base, done, k, _ => by simp [genGo, mapIdxFrom]
  | s :: rest, base, done, k, h => by
    have h0 : nonFatalAt env k := by simpa using h 0 (by simp)
    have hnext : ∀ j, j < rest.length → nonFatalAt env (k + 1 + j) := by
      intro j hj
      have := h (j + 1) (by simp; omega)
      rwa [show k + (j + 1) = k + 1 + j by omega] at this
    cases hc : sceneCalls env k with
    | ok p =>
      obtain ⟨v, a⟩ := p
      have ih := fun d => genGo_pass env rest { base with progress := 30 + k * 10 }
        d (k + 1) hnext
      simp only [genGo, hc]
      refine ⟨(ih _).1, ?_, (ih _).2.2⟩
      rw [(ih _).2.1]
      simp [mapIdxFrom, processedScene, hc]
    | error msg =>
      have hh : (handleGlobalError msg).handled = false := by
        rcases h0 with ⟨v, a, hva⟩ | ⟨msg', hmsg', hh'⟩
        · rw [hc] at hva
          cases hva
        · rw [hc] at hmsg'
          cases hmsg'
          exact hh'
      have ih := fun d => genGo_pass env rest { base with progress := 30 + k * 10 }
        d (k + 1) hnext
      simp only [genGo, hc, hh, Bool.false_eq_true, if_false]
      refine ⟨(ih _).1, ?_, (ih _).2.2⟩
      rw [(ih _).2.1]
      simp [mapIdxFrom, processedScene, hc]

lemma genGo_last_of_abort (env : GenEnv) :
    ∀ (l : List Scene) (base : GenerationState) (done : List Scene) (i : Nat),
      (genGo env base done i l).2.2 = true →
      (genGo env base done i l).1.getLast? = some (genGo env base done i l).2.1
  | [], base, done, i => by simp [genGo]
  | s :: rest, base, done, i => by
    intro habort
    cases hc : sceneCalls env i with
    | ok p =>
      obtain ⟨v, a⟩ := p
      simp only [genGo, hc] at habort ⊢
      have ih := genGo_last_of_abort env rest _ _ _ habort
      have hne : (genGo env { base with progress := 30 + i * 10 }
          (done ++ [{ { s with status := SceneStatus.generating } with videoUrl := some v, audioUrl := some a, status := SceneStatus.completed }])
          (i + 1) rest).1 ≠ [] := by
        intro hnil
        rw [hnil] at ih
        cases ih
      rw [getLast?_cons_ne _ _ (by simp), getLast?_cons_ne _ _ hne]
      exact ih
    | error msg =>
      by_cases hh : (handleGlobalError msg).handled = true
      · simp [genGo, hc, hh]
      · simp only [genGo, hc, hh, Bool.false_eq_true, if_false] at habort ⊢
        have ih := genGo_last_of_abort env rest _ _ _ habort
        have hne : (genGo env { base with progress := 30 + i * 10 }
            (done ++ [{ { s with status := SceneStatus.generating } with status := SceneStatus.failed }])
            (i + 1) rest).1 ≠ [] := by
          intro hnil
          rw [hnil] at ih
          cases ih
        rw [getLast?_cons_ne _ _ (by simp), getLast?_cons_ne _ _ hne]
        exact ih

lemma genGo_fatal (env : GenEnv) :
    ∀ (l : List Scene) (base : GenerationState) (done : List Scene) (k i : Nat)
      (s : Scene),
      l[i]? = some s →
      (∀ j, j < i → nonFatalAt env (k + j)) → fatalAt env (k + i) →
      (genGo env base done k l).2.2 = true ∧
      (genGo env base done k l).2.1.step = base.step ∧
      (∀ j, i < j →
        (genGo env base done k l).2.1.scenes[done.length + j]? = l[j]?)
  | [], _, _, _, i, s => by
    intro hget _ _
    simp at hget
  | s0 :: rest, base, done, k, 0, s => by
    intro hget _ hfat
    obtain ⟨msg, hc, hh⟩ := hfat
    rw [show k + 0 = k by omega] at hc
    simp only [genGo, hc, hh, if_true]
    refine ⟨by trivial, by trivial, ?_⟩
    intro j hj
    obtain ⟨j', rfl⟩ : ∃ j', j = j' + 1 := ⟨j - 1, by omega⟩
    show (done ++ { s0 with status := SceneStatus.generating } :: rest)[done.length + (j' + 1)]? =
      (s0 :: rest)[j' + 1]?
    rw [getElem?_append_offset, List.getElem?_cons_succ, List.getElem?_cons_succ]
  | s0 :: rest, base, done, k, i' + 1, s => by
    intro hget hbef hfat
    have h0 : nonFatalAt env k := by simpa using hbef 0 (by omega)
    have hbef' : ∀ j, j < i' → nonFatalAt env (k + 1 + j) := by
      intro j hj
      have := hbef (j + 1) (by omega)
      rwa [show k + (j + 1) = k + 1 + j by omega] at this
    have hfat' : fatalAt env (k + 1 + i') := by
      rwa [show k + (i' + 1) = k + 1 + i' by omega] at hfat
    have hget' : rest[i']? = some s := by simpa using hget
    cases hc : sceneCalls env k with
    | ok p =>
      obtain ⟨v, a⟩ := p
      have ih := genGo_fatal env rest { base with progress := 30 + k * 10 }
        (done ++ [{ { s0 with status := SceneStatus.generating } with videoUrl := some v, audioUrl := some a, status := SceneStatus.completed }])
        (k + 1) i' s hget' hbef' hfat'
      simp only [genGo, hc]
      refine ⟨ih.1, ih.2.1, ?_⟩
      intro j hj
      obtain ⟨j', rfl⟩ : ∃ j', j = j' + 1 := ⟨j - 1, by omega⟩
      have hstep := ih.2.2 j' (by omega)
      rw [List.length_append, List.length_singleton] at hstep
      rw [show done.length + (j' + 1) = done.length + 1 + j' by omega]
      rw [hstep]
      simp
    | error msg =>
      have hh : (handleGlobalError msg).handled = false := by
        rcases h0 with ⟨v, a, hva⟩ | ⟨msg', hmsg', hh'⟩
        · rw [hc] at hva
          cases hva
        · rw [hc] at hmsg'
          cases hmsg'
          exact hh'
      have ih := genGo_fatal env rest { base with progress := 30 + k * 10 }
        (done ++ [{ { s0 with status := SceneStatus.generating } with status := SceneStatus.failed }])
        (k + 1) i' s hget' hbef' hfat'
      simp only [genGo, hc, hh, Bool.false_eq_true, if_false]
      refine ⟨ih.1, ih.2.1, ?_⟩
      intro j hj
      obtain ⟨j', rfl⟩ : ∃ j', j = j' + 1 := ⟨j - 1, by omega⟩
      have hstep := ih.2.2 j' (by omega)
      rw [List.length_append, List.length_singleton] at hstep
      rw [show done.length + (j' + 1) = done.length + 1 + j' by omega]
      rw [hstep]
      simp

lemma handleGlobalError_handled (msg : String) :
    (handleGlobalError msg).handled = (msgKeyError msg || msgInternalError msg) := by
  by_cases h1 : msgKeyError msg = true <;> by_cases h2 : msgInternalError msg = true <;>
    simp [handleGlobalError, h1, h2]

/-- startGeneration with a valid input and a parsed storyboard: the
guard passes, the two leading states are emitted and the loop runs. -/
lemma startGeneration_ok_trace (inp : AppInput) (env : GenEnv) (st0 : GenerationState)
    (records : List SceneRecord)
    (hname : inp.name ≠ "") (hdesc : inp.description ≠ "")
    (hsb : env.storyboard = Except.ok records) :
    ∃ st1 st2 r,
      st1 = { st0 with step := Step.processing, progress := 10 } ∧
      st2 = { st1 with
                step := Step.generating,
                scenes := createStoryboards records inp.screenshots,
                progress := 30 } ∧
      r = genGo env st2 [] 0 (createStoryboards records inp.screenshots) ∧
      startGeneration true inp env st0 =
        (if r.2.2 then st0 :: st1 :: st2 :: r.1
         else st0 :: st1 :: st2 :: r.1 ++
            [{ r.2.1 with step := Step.final, progress := 100 }]) := by
  refine ⟨_, _, _, rfl, rfl, rfl, ?_⟩
  unfold startGeneration
  rw [if_neg (by simp), if_neg (by simp [hname, hdesc]), hsb]

/-- startGeneration when createStoryboards throws. -/
lemma startGeneration_err_trace (inp : AppInput) (env : GenEnv) (st0 : GenerationState)
    (msg : String) (hname : inp.name ≠ "") (hdesc : inp.description ≠ "")
    (hsb : env.storyboard = Except.error msg) :
    startGeneration true inp env st0 =
      [st0, { st0 with step := Step.processing, progress := 10 },
        { st0 with step := Step.input, progress := 10 }] := by
  unfold startGeneration
  rw [if_neg (by simp), if_neg (by simp [hname, hdesc]), hsb]

/-- C1: starting from the input step with an API key, nonempty name and
description and all service calls succeeding, startGeneration visits the
steps input, processing, generating, final in exactly that order; every
state of any run carries one of those four steps; and when
createStoryboards throws, the run ends back at the input step. -/
theorem startGeneration_step_machine (inp : AppInput) (env : GenEnv)
    (st0 : GenerationState) :
    (st0.step = Step.input → inp.name ≠ "" → inp.description ≠ "" →
      (∃ records, env.storyboard = Except.ok records) →
      (∀ i, ∃ v a, sceneCalls env i = Except.ok (v, a)) →
      squashRepeats ((startGeneration true inp env st0).map (fun s => s.step)) =
        [Step.input, Step.processing, Step.generating, Step.final]) ∧
    (∀ s ∈ startGeneration true inp env st0,
      s.step = Step.input ∨ s.step = Step.processing ∨ s.step = Step.generating ∨
        s.step = Step.final) ∧
    (st0.step = Step.input → inp.name ≠ "" → inp.description ≠ "" →
      (∃ msg, env.storyboard = Except.error msg) →
      ∃ fin, (startGeneration true inp env st0).getLast? = some fin ∧
        fin.step = Step.input) := by
  refine ⟨?_, ?_, ?_⟩
  · rintro hst0 hname hdesc ⟨records, hsb⟩ hok
    obtain ⟨st1, st2, r, hst1, hst2, hr, htrace⟩ :=
      startGeneration_ok_trace inp env st0 records hname hdesc hsb
    have hpass := genGo_pass env (createStoryboards records inp.screenshots) st2 [] 0
      (fun j _ => Or.inl (by simpa using hok j))
    rw [← hr] at hpass
    rw [htrace, if_neg (by rw [hpass.1]; simp)]
    have hsteps : ∀ y ∈ r.1.map (fun s => s.step), y = Step.generating := by
      intro y hy
      obtain ⟨x, hx, rfl⟩ := List.mem_map.mp hy
      have := genGo_trace_step env (createStoryboards records inp.screenshots)
        st2 [] 0 x (by rw [← hr] at *; exact hx)
      rw [this, hst2]
    subst hst1
    subst hst2
    simp only [List.map_cons, List.map_append, List.map_nil, hst0]
    exact squash_shape Step.input Step.processing Step.generating Step.final
      (r.1.map (fun s => s.step)) (by decide) (by decide) (by decide) hsteps
  · intro s _
    cases h : s.step
    · exact Or.inl rfl
    · exact Or.inr (Or.inl rfl)
    · exact Or.inr (Or.inr (Or.inl rfl))
    · exact Or.inr (Or.inr (Or.inr rfl))
  · rintro hst0 hname hdesc ⟨msg, hsb⟩
    rw [startGeneration_err_trace inp env st0 msg hname hdesc hsb]
    exact ⟨_, rfl, rfl⟩

/-- Witness for C1: a two-scene run with all calls succeeding, and a run
whose storyboard call throws. -/
theorem startGeneration_step_machine_witness :
    squashRepeats ((startGeneration true
        ⟨"App", "", "desc", "", []⟩
        ⟨Except.ok [⟨"0:00", "v1", "n1"⟩, ⟨"0:15", "v2", "n2"⟩],
          fun _ => Except.ok "vid", fun _ => Except.ok "aud"⟩
        ⟨Step.input, [], 0⟩).map (fun s => s.step)) =
      [Step.input, Step.processing, Step.generating, Step.final] ∧
    (∃ fin, (startGeneration true
        ⟨"App", "", "desc", "", []⟩
        ⟨Except.error "boom", fun _ => Except.ok "vid", fun _ => Except.ok "aud"⟩
        ⟨Step.input, [], 0⟩).getLast? = some fin ∧ fin.step = Step.input) := by
  constructor
  · exact (startGeneration_step_machine ⟨"App", "", "desc", "", []⟩
      ⟨Except.ok [⟨"0:00", "v1", "n1"⟩, ⟨"0:15", "v2", "n2"⟩],
        fun _ => Except.ok "vid", fun _ => Except.ok "aud"⟩
      ⟨Step.input, [], 0⟩).1 rfl (by decide) (by decide)
      ⟨[⟨"0:00", "v1", "n1"⟩, ⟨"0:15", "v2", "n2"⟩], rfl⟩
      (fun i => ⟨"vid", "aud", rfl⟩)
  · exact (startGeneration_step_machine ⟨"App", "", "desc", "", []⟩
      ⟨Except.error "boom", fun _ => Except.ok "vid", fun _ => Except.ok "aud"⟩
      ⟨Step.input, [], 0⟩).2.2 rfl (by decide) (by decide) ⟨"boom", rfl⟩

/-- C5: when the calls for scene i throw a message matching none of the
six handled patterns, only that scene ends failed, the rest complete and
the run still reaches step final with progress 100; when the message
matches one of them, the run returns early and every scene after the
failing one keeps the pending status it had at that moment. -/
theorem startGeneration_scene_errors (inp : AppInput) (env : GenEnv)
    (st0 : GenerationState) (records : List SceneRecord) (i : Nat) (msg : String)
    (hname : inp.name ≠ "") (hdesc : inp.description ≠ "")
    (hsb : env.storyboard = Except.ok records)
    (hi : i < records.length)
    (herr : sceneCalls env i = Except.error msg) :
    ((strIncludes msg "Requested entity was not found" = false ∧
      strIncludes msg "API_KEY" = false ∧ strIncludes msg "401" = false ∧
      strIncludes msg "403" = false ∧ strIncludes msg "500" = false ∧
      strIncludes msg "INTERNAL" = false) →
      (∀ j, j < records.length → j ≠ i → ∃ v a, sceneCalls env j = Except.ok (v, a)) →
      ∃ fin, (startGeneration true inp env st0).getLast? = some fin ∧
        fin.step = Step.final ∧ fin.progress = 100 ∧
        sceneStatusAt fin i = some SceneStatus.failed ∧
        (∀ j, j < records.length → j ≠ i →
          sceneStatusAt fin j = some SceneStatus.completed)) ∧
    ((strIncludes msg "Requested entity was not found" = true ∨
      strIncludes msg "API_KEY" = true ∨ strIncludes msg "401" = true ∨
      strIncludes msg "403" = true ∨ strIncludes msg "500" = true ∨
      strIncludes msg "INTERNAL" = true) →
      (∀ j, j < i → nonFatalAt env j) →
      ∃ fin, (startGeneration true inp env st0).getLast? = some fin ∧
        fin.step = Step.generating ∧
        (∀ j, i < j → j < records.length →
          sceneStatusAt fin j = some SceneStatus.pending)) := by
  have hlen : (createStoryboards records inp.screenshots).length = records.length :=
    mkScenesFrom_length inp.screenshots 0 records
  have hrec : ∀ j, j < records.length → ∃ rec, records[j]? = some rec := by
    intro j hj
    cases hq : records[j]? with
    | none =>
      rw [List.getElem?_eq_none_iff] at hq
      omega
    | some rec => exact ⟨rec, rfl⟩
  have hsbi : ∀ j rec, records[j]? = some rec →
      (createStoryboards records inp.screenshots)[j]? =
        some (mkScene inp.screenshots j rec) := by
    intro j rec hj
    have := mkScenesFrom_getElem? inp.screenshots records 0 j
    simpa [createStoryboards, hj] using this
  constructor
  · rintro ⟨h1, h2, h3, h4, h5, h6⟩ hok
    obtain ⟨st1, st2, r, hst1, hst2, hr, htrace⟩ :=
      startGeneration_ok_trace inp env st0 records hname hdesc hsb
    have hhandled : (handleGlobalError msg).handled = false := by
      rw [handleGlobalError_handled]
      simp [msgKeyError, msgInternalError, h1, h2, h3, h4, h5, h6]
    have hpass := genGo_pass env (createStoryboards records inp.screenshots) st2 [] 0
      (fun j hj => by
        rw [hlen] at hj
        by_cases hji : j = i
        · subst hji
          exact Or.inr ⟨msg, by simpa using herr, hhandled⟩
        · obtain ⟨v, a, hva⟩ := hok j hj hji
          exact Or.inl ⟨v, a, by simpa using hva⟩)
    rw [← hr] at hpass
    have hscenes : r.2.1.scenes =
        mapIdxFrom env 0 (createStoryboards records inp.screenshots) := by
      rw [hpass.2.1]
      simp
    have hstatus : ∀ j, j < records.length →
        sceneStatusAt { r.2.1 with step := Step.final, progress := 100 } j =
          ((records[j]?).map (fun rec =>
            (processedScene env j (mkScene inp.screenshots j rec)).status)) := by
      intro j hj
      obtain ⟨rec, hrecj⟩ := hrec j hj
      unfold sceneStatusAt
      show (r.2.1.scenes[j]?).map (fun s => s.status) = _
      rw [hscenes, mapIdxFrom_getElem?, hsbi j rec hrecj, hrecj]
      simp
    refine ⟨{ r.2.1 with step := Step.final, progress := 100 }, ?_, rfl, rfl, ?_, ?_⟩
    · rw [htrace, if_neg (by rw [hpass.1]; simp)]
      exact List.getLast?_concat _
    · obtain ⟨rec, hreci⟩ := hrec i hi
      rw [hstatus i hi, hreci]
      simp [processedScene, herr]
    · intro j hj hji
      obtain ⟨v, a, hva⟩ := hok j hj hji
      obtain ⟨rec, hrecj⟩ := hrec j hj
      rw [hstatus j hj, hrecj]
      simp [processedScene, hva]
  · rintro hdisj hbef
    obtain ⟨st1, st2, r, hst1, hst2, hr, htrace⟩ :=
      startGeneration_ok_trace inp env st0 records hname hdesc hsb
    have hhandled : (handleGlobalError msg).handled = true := by
      rw [handleGlobalError_handled]
      rcases hdisj with h | h | h | h | h | h <;>
        simp [msgKeyError, msgInternalError, h]
    obtain ⟨rec, hreci⟩ := hrec i hi
    have hfatal := genGo_fatal env (createStoryboards records inp.screenshots) st2 [] 0 i
      (mkScene inp.screenshots i rec) (hsbi i rec hreci)
      (fun j hj => by simpa using hbef j hj)
      ⟨msg, by simpa using herr, hhandled⟩
    have hlast := genGo_last_of_abort env (createStoryboards records inp.screenshots)
      st2 [] 0 hfatal.1
    rw [← hr] at hfatal hlast
    have hne : r.1 ≠ [] := by
      intro h0
      rw [h0] at hlast
      cases hlast
    refine ⟨r.2.1, ?_, ?_, ?_⟩
    · rw [htrace, if_pos hfatal.1]
      rw [getLast?_cons_ne _ _ (by simp), getLast?_cons_ne _ _ (by simp),
        getLast?_cons_ne _ _ hne]
      exact hlast
    · rw [hfatal.2.1, hst2]
    · intro j hij hj
      have hkeep := hfatal.2.2 j hij
      simp only [List.length_nil, Nat.zero_add] at hkeep
      obtain ⟨recj, hrecj⟩ := hrec j hj
      unfold sceneStatusAt
      rw [hkeep, hsbi j recj hrecj]
      simp [mkScene]

/-- Witness for C5: a two-scene run where scene 0 throws an unmatched
message, and a two-scene run where scene 0 throws a 401 message. -/
theorem startGeneration_scene_errors_witness :
    (∃ fin, (startGeneration true ⟨"App", "", "desc", "", []⟩
        ⟨Except.ok [⟨"0:00", "v1", "n1"⟩, ⟨"0:15", "v2", "n2"⟩],
          fun j => if j = 0 then Except.error "oops" else Except.ok "vid",
          fun _ => Except.ok "aud"⟩
        ⟨Step.input, [], 0⟩).getLast? = some fin ∧
      fin.step = Step.final ∧ fin.progress = 100 ∧
      sceneStatusAt fin 0 = some SceneStatus.failed ∧
      (∀ j, j < ([⟨"0:00", "v1", "n1"⟩, ⟨"0:15", "v2", "n2"⟩] :
          List SceneRecord).length → j ≠ 0 →
        sceneStatusAt fin j = some SceneStatus.completed)) ∧
    (∃ fin, (startGeneration true ⟨"App", "", "desc", "", []⟩
        ⟨Except.ok [⟨"0:00", "v1", "n1"⟩, ⟨"0:15", "v2", "n2"⟩],
          fun j => if j = 0 then Except.error "got 401" else Except.ok "vid",
          fun _ => Except.ok "aud"⟩
        ⟨Step.input, [], 0⟩).getLast? = some fin ∧
      fin.step = Step.generating ∧
      (∀ j, 0 < j → j < ([⟨"0:00", "v1", "n1"⟩, ⟨"0:15", "v2", "n2"⟩] :
          List SceneRecord).length →
        sceneStatusAt fin j = some SceneStatus.pending)) := by
  constructor
  · exact (startGeneration_scene_errors ⟨"App", "", "desc", "", []⟩
      ⟨Except.ok [⟨"0:00", "v1", "n1"⟩, ⟨"0:15", "v2", "n2"⟩],
        fun j => if j = 0 then Except.error "oops" else Except.ok "vid",
        fun _ => Except.ok "aud"⟩
      ⟨Step.input, [], 0⟩ [⟨"0:00", "v1", "n1"⟩, ⟨"0:15", "v2", "n2"⟩] 0 "oops"
      (by decide) (by decide) rfl (by decide) rfl).1
      (by refine ⟨?_, ?_, ?_, ?_, ?_, ?_⟩ <;> decide)
      (by
        intro j hj hj0
        exact ⟨"vid", "aud", by
          simp only [sceneCalls]
          rw [if_neg hj0]⟩)
  · exact (startGeneration_scene_errors ⟨"App", "", "desc", "", []⟩
      ⟨Except.ok [⟨"0:00", "v1", "n1"⟩, ⟨"0:15", "v2", "n2"⟩],
        fun j => if j = 0 then Except.error "got 401" else Except.ok "vid",
        fun _ => Except.ok "aud"⟩
      ⟨Step.input, [], 0⟩ [⟨"0:00", "v1", "n1"⟩, ⟨"0:15", "v2", "n2"⟩] 0 "got 401"
      (by decide) (by decide) rfl (by decide) rfl).2
      (by right; right; left; decide)
      (by intro j hj; omega)

/-! ### C2 and C8: the editor clip loop

To reason about procGo independently of the processed prefix, the loop is
decomposed into three projections over the remaining clips: the clips
lists it emits, the clips list it ends with, and whether it threw. -/

/-- The clip at loop index j is handled without throwing: it is skipped
as ready, or its calls succeed (the narration call only matters when the
voiceover is on). -/
def clipPasses (env : EditorEnv) (voice : Bool) (j : Nat) (c : EditorClip) : Prop :=
  c.status = ClipStatus.ready ∨
  ((∃ x, env.analyzeResult j = Except.ok x) ∧
    (voice = true → ∃ y, env.audioResult j = Except.ok y))

/-- Handling the clip at loop index j throws: analyzeVideoClip throws, or
the voiceover is on, the analysis succeeds and generateNarration throws. -/
def clipThrows (env : EditorEnv) (voice : Bool) (j : Nat) : Prop :=
  (∃ e, env.analyzeResult j = Except.error e) ∨
  (voice = true ∧ (∃ x, env.analyzeResult j = Except.ok x) ∧
    ∃ e, env.audioResult j = Except.error e)

/-- The clips list the loop ends with, relative to the remaining clips. -/
def procFinalClips (env : EditorEnv) (voice : Bool) : Nat → List EditorClip → List EditorClip
  | _, [] => []
  | k, c :: rest =>
    if c.status = ClipStatus.ready then c :: procFinalClips env voice (k + 1) rest
    else
      match env.analyzeResult k with
      | Except.error _ => { c with status := ClipStatus.idle } :: rest
      | Except.ok (ax, nx) =>
        if voice then
          match env.audioResult k with
          | Except.error _ =>
            { c with
                status := ClipStatus.idle,
                analysis := some ax,
                narration := some nx } :: rest
          | Except.ok y =>
            { c with
                status := ClipStatus.ready,
                analysis := some ax,
                narration := some nx,
                audioUrl := some y } :: procFinalClips env voice (k + 1) rest
        else
          { c with
              status := ClipStatus.ready,
              analysis := some ax,
              narration := some nx } :: procFinalClips env voice (k + 1) rest

/-- Whether the loop throws, relative to the remaining clips. -/
def procThrew (env : EditorEnv) (voice : Bool) : Nat → List EditorClip → Bool
  | _, [] => false
  | k, c :: rest =>
    if c.status = ClipStatus.ready then procThrew env voice (k + 1) rest
    else
      match env.analyzeResult k with
      | Except.error _ => true
      | Except.ok _ =>
        if voice then
          match env.audioResult k with
          | Except.error _ => true
          | Except.ok _ => procThrew env voice (k + 1) rest
        else procThrew env voice (k + 1) rest

/-- The clips lists the loop passes to setEditorState, relative to the
remaining clips. -/
def procEmitsLocal (env : EditorEnv) (voice : Bool) : Nat → List EditorClip → List (List EditorClip)
  | _, [] => []
  | k, c :: rest =>
    if c.status = ClipStatus.ready then
      (procEmitsLocal env voice (k + 1) rest).map (fun t => c :: t)
    else
      let c1 := { c with status := ClipStatus.analyzing }
      match env.analyzeResult k with
      | Except.error _ => [c1 :: rest]
      | Except.ok (ax, nx) =>
        let c2 := { c1 with analysis := some ax, narration := some nx }
        if voice then
          let c3 := { c2 with status := ClipStatus.generatingAudio }
          match env.audioResult k with
          | Except.error _ => [c1 :: rest, c3 :: rest]
          | Except.ok y =>
            let c4 := { c3 with audioUrl := some y, status := ClipStatus.ready }
            (c1 :: rest) :: (c3 :: rest) :: (c4 :: rest) ::
              (procEmitsLocal env voice (k + 1) rest).map (fun t => c4 :: t)
        else
          let c4 := { c2 with status := ClipStatus.ready }
          (c1 :: rest) :: (c4 :: rest) ::
            (procEmitsLocal env voice (k + 1) rest).map (fun t => c4 :: t)

lemma procGo_decompose (env : EditorEnv) (voice : Bool) :
    ∀ (l done : List EditorClip) (k : Nat),
      (procGo env voice done k l).1 =
        (procEmitsLocal env voice k l).map (fun t => done ++ t) ∧
      (procGo env voice done k l).2.1 = done ++ procFinalClips env voice k l ∧
      (procGo env voice done k l).2.2 = procThrew env voice k l
  | [], done, k => by simp [procGo, procEmitsLocal, procFinalClips, procThrew]
  | c :: rest, done, k => by
    have ih := procGo_decompose env voice rest
    by_cases hr : c.status = ClipStatus.ready
    · simp only [procGo, procEmitsLocal, procFinalClips, procThrew, hr, if_true]
      refine ⟨?_, ?_, (ih _ _).2.2⟩
      · rw [(ih _ _).1]
        simp [Function.comp]
      · rw [(ih _ _).2.1]
        simp
    · cases ha : env.analyzeResult k with
      | error e =>
        simp [procGo, procEmitsLocal, procFinalClips, procThrew, hr, ha]
      | ok p =>
        obtain ⟨ax, nx⟩ := p
        by_cases hv : voice = true
        · subst hv
          cases hau : env.audioResult k with
          | error e =>
            simp [procGo, procEmitsLocal, procFinalClips, procThrew, hr, ha, hau]
          | ok y =>
            simp only [procGo, procEmitsLocal, procFinalClips, procThrew, hr, ha,
              hau, if_false, if_true]
            refine ⟨?_, ?_, (ih _ _).2.2⟩
            · rw [(ih _ _).1]
              simp [Function.comp]
            · rw [(ih _ _).2.1]
              simp
        · have hv' : voice = false := by simpa using hv
          subst hv'
          simp only [procGo, procEmitsLocal, procFinalClips, procThrew, hr, ha,
            Bool.false_eq_true, if_false]
          refine ⟨?_, ?_, (ih _ _).2.2⟩
          · rw [(ih _ _).1]
            simp [Function.comp]
          · rw [(ih _ _).2.1]
            simp

lemma procFinalClips_throw (env : EditorEnv) (voice : Bool) :
    ∀ (l : List EditorClip) (k i : Nat) (c : EditorClip),
      l[i]? = some c → c.status ≠ ClipStatus.ready →
      (∀ j cj, j < i → l[j]? = some cj → clipPasses env voice (k + j) cj) →
      clipThrows env voice (k + i) →
      procThrew env voice k l = true ∧
      (∃ ci, (procFinalClips env voice k l)[i]? = some ci ∧
        ci.status = ClipStatus.idle) ∧
      (∀ j, i < j → (procFinalClips env voice k l)[j]? = l[j]?)
  | [], _, i, c => by
    intro hget
    simp at hget
  | c0 :: rest, k, 0, c => by
    intro hget hnr _ hthrow
    simp only [List.getElem?_cons_zero, Option.some.injEq] at hget
    subst hget
    cases ha : env.analyzeResult k with
    | error e =>
      simp only [procThrew, procFinalClips, hnr, if_false, ha]
      refine ⟨by trivial, ⟨_, List.getElem?_cons_zero, rfl⟩, ?_⟩
      intro j hj
      obtain ⟨j', rfl⟩ : ∃ j', j = j' + 1 := ⟨j - 1, by omega⟩
      simp
    | ok p =>
      obtain ⟨ax, nx⟩ := p
      rcases hthrow with ⟨e, he⟩ | ⟨hv, _, e, he⟩
      · rw [show k + 0 = k by omega] at he
        rw [ha] at he
        cases he
      · subst hv
        rw [show k + 0 = k by omega] at he
        simp only [procThrew, procFinalClips, hnr, if_false, ha, he, if_true]
        refine ⟨by trivial, ⟨_, List.getElem?_cons_zero, rfl⟩, ?_⟩
        intro j hj
        obtain ⟨j', rfl⟩ : ∃ j', j = j' + 1 := ⟨j - 1, by omega⟩
        simp
  | c0 :: rest, k, i + 1, c => by
    intro hget hnr hbef hthrow
    have hget' : rest[i]? = some c := by simpa using hget
    have hbef' : ∀ j cj, j < i → rest[j]? = some cj →
        clipPasses env voice (k + 1 + j) cj := by
      intro j cj hj hcj
      have := hbef (j + 1) cj (by omega) (by simpa using hcj)
      rwa [show k + (j + 1) = k + 1 + j by omega] at this
    have hthrow' : clipThrows env voice (k + 1 + i) := by
      rwa [show k + (i + 1) = k + 1 + i by omega] at hthrow
    have hpass0 := hbef 0 c0 (by omega) (by simp)
    have ih := procFinalClips_throw env voice rest (k + 1) i c hget' hnr hbef' hthrow'
    by_cases hr : c0.status = ClipStatus.ready
    · simp only [procThrew, procFinalClips, hr, if_true]
      refine ⟨ih.1, ?_, ?_⟩
      · obtain ⟨ci, hci, hst⟩ := ih.2.1
        exact ⟨ci, by simpa using hci, hst⟩
      intro j hj
      obtain ⟨j', rfl⟩ : ∃ j', j = j' + 1 := ⟨j - 1, by omega⟩
      simpa using ih.2.2 j' (by omega)
    · have hok : ∃ x, env.analyzeResult (k + 0) = Except.ok x := by
        rcases hpass0 with h | ⟨h, _⟩
        · exact absurd h hr
        · exact h
      rw [show k + 0 = k by omega] at hpass0
      obtain ⟨⟨ax, nx⟩, ha⟩ := hok
      rw [show k + 0 = k by omega] at ha
      by_cases hv : voice = true
      · subst hv
        obtain ⟨y, hy⟩ : ∃ y, env.audioResult k = Except.ok y := by
          rcases hpass0 with h | ⟨_, h⟩
          · exact absurd h hr
          · exact h rfl
        simp only [procThrew, procFinalClips, hr, if_false, ha, hy, if_true]
        refine ⟨ih.1, ?_, ?_⟩
        · obtain ⟨ci, hci, hst⟩ := ih.2.1
          exact ⟨ci, by simpa using hci, hst⟩
        intro j hj
        obtain ⟨j', rfl⟩ : ∃ j', j = j' + 1 := ⟨j - 1, by omega⟩
        simpa using ih.2.2 j' (by omega)
      · have hv' : voice = false := by simpa using hv
        subst hv'
        simp only [procThrew, procFinalClips, hr, Bool.false_eq_true, if_false, ha]
        refine ⟨ih.1, ?_, ?_⟩
        · obtain ⟨ci, hci, hst⟩ := ih.2.1
          exact ⟨ci, by simpa using hci, hst⟩
        intro j hj
        obtain ⟨j', rfl⟩ : ∃ j', j = j' + 1 := ⟨j - 1, by omega⟩
        simpa using ih.2.2 j' (by omega)

lemma procEmits_success (env : EditorEnv) :
    ∀ (l : List EditorClip) (k i : Nat) (c : EditorClip),
      l[i]? = some c → c.status = ClipStatus.idle →
      (∀ j cj, j < i → l[j]? = some cj → clipPasses env true (k + j) cj) →
      (∃ x, env.analyzeResult (k + i) = Except.ok x) →
      (∃ y, env.audioResult (k + i) = Except.ok y) →
      ∃ pre post,
        (procEmitsLocal env true k l).map
            (fun e => (e[i]?).map (fun cc => cc.status)) =
          pre ++ ([some ClipStatus.analyzing, some ClipStatus.generatingAudio,
            some ClipStatus.ready] ++ post) ∧
        (∀ x ∈ pre, x = some ClipStatus.idle) ∧
        (∀ x ∈ post, x = some ClipStatus.ready) ∧
        ∃ cf, (procFinalClips env true k l)[i]? = some cf ∧
          cf.status = ClipStatus.ready
  | [], _, i, c => by
    intro hget
    simp at hget
  | c0 :: rest, k, 0, c => by
    intro hget hidle _ hax hay
    simp only [List.getElem?_cons_zero, Option.some.injEq] at hget
    subst hget
    have hnr : ¬ c0.status = ClipStatus.ready := by
      rw [hidle]
      decide
    obtain ⟨⟨ax, nx⟩, ha⟩ := hax
    obtain ⟨y, hy⟩ := hay
    rw [show k + 0 = k by omega] at ha hy
    simp only [procEmitsLocal, procFinalClips, hnr, if_false, ha, hy, if_true,
      List.map_cons, List.getElem?_cons_zero, Option.map_some']
    refine ⟨[], _, rfl, by simp, ?_, ⟨_, rfl, rfl⟩⟩
    intro x hx
    simp only [List.map_map, List.mem_map, Function.comp] at hx
    obtain ⟨t, _, rfl⟩ := hx
    simp
  | c0 :: rest, k, i + 1, c => by
    intro hget hidle hbef hax hay
    have hget' : rest[i]? = some c := by simpa using hget
    have hbef' : ∀ j cj, j < i → rest[j]? = some cj →
        clipPasses env true (k + 1 + j) cj := by
      intro j cj hj hcj
      have := hbef (j + 1) cj (by omega) (by simpa using hcj)
      rwa [show k + (j + 1) = k + 1 + j by omega] at this
    have hax' : ∃ x, env.analyzeResult (k + 1 + i) = Except.ok x := by
      rwa [show k + 1 + i = k + (i + 1) by omega]
    have hay' : ∃ y, env.audioResult (k + 1 + i) = Except.ok y := by
      rwa [show k + 1 + i = k + (i + 1) by omega]
    obtain ⟨pre, post, heq, hpre, hpost, hfin⟩ :=
      procEmits_success env rest (k + 1) i c hget' hidle hbef' hax' hay'
    have hpass0 := hbef 0 c0 (by omega) (by simp)
    rw [show k + 0 = k by omega] at hpass0
    by_cases hr : c0.status = ClipStatus.ready
    · refine ⟨pre, post, ?_, hpre, hpost, ?_⟩
      · simp only [procEmitsLocal, hr, if_true, List.map_map]
        rw [← heq]
        apply List.map_congr_left
        intro t _
        simp
      · simp only [procFinalClips, hr, if_true, List.getElem?_cons_succ]
        exact hfin
    · have hok : ∃ x, env.analyzeResult k = Except.ok x := by
        rcases hpass0 with h | ⟨h, _⟩
        · exact absurd h hr
        · exact h
      obtain ⟨⟨ax, nx⟩, ha⟩ := hok
      obtain ⟨y, hy⟩ : ∃ y, env.audioResult k = Except.ok y := by
        rcases hpass0 with h | ⟨_, h⟩
        · exact absurd h hr
        · exact h rfl
      refine ⟨some ClipStatus.idle :: some ClipStatus.idle :: some ClipStatus.idle ::
        pre, post, ?_, ?_, hpost, ?_⟩
      · simp only [procEmitsLocal, hr, if_false, ha, hy, if_true, List.map_cons,
          List.getElem?_cons_succ, hget', Option.map_some', hidle, List.map_map,
          List.cons_append]
        congr 1
        congr 1
        congr 1
        have heq2 : (procEmitsLocal env true (k + 1) rest).map
            (fun e => (e[i]?).map (fun cc => cc.status)) =
            pre ++ some ClipStatus.analyzing :: some ClipStatus.generatingAudio ::
              some ClipStatus.ready :: ([] ++ post) := by
          rw [heq]
          simp
        rw [← heq2]
        apply List.map_congr_left
        intro t _
        simp
      · intro x hx
        rcases List.mem_cons.mp hx with rfl | hx
        · rfl
        rcases List.mem_cons.mp hx with rfl | hx
        · rfl
        rcases List.mem_cons.mp hx with rfl | hx
        · rfl
        exact hpre x hx
      · simp only [procFinalClips, hr, if_false, ha, hy, if_true,
          List.getElem?_cons_succ]
        exact hfin

/-- The trace of a processEditorClips run whose guards pass: the state
before the run, the isProcessing flip, the loop emissions, and a closing
state that clears isProcessing; youtubeMetadata changes only when the
loop finishes and the metadata call succeeds. -/
lemma processEditorClips_shape (env : EditorEnv) (st : EditorState)
    (h0 : ¬ st.clips.length = 0) :
    ∃ meta,
      ((procGo env st.includeVoiceover [] 0 st.clips).2.2 = true →
        meta = st.youtubeMetadata) ∧
      processEditorClips true env st =
        (st :: { st with isProcessing := true } ::
          ((procGo env st.includeVoiceover [] 0 st.clips).1.map
            (fun cl => { st with isProcessing := true, clips := cl }))) ++
          [{ st with
               isProcessing := false,
               clips := (procGo env st.includeVoiceover [] 0 st.clips).2.1,
               youtubeMetadata := meta }] := by
  by_cases hth : (procGo env st.includeVoiceover [] 0 st.clips).2.2 = true
  · refine ⟨st.youtubeMetadata, fun _ => rfl, ?_⟩
    unfold processEditorClips
    rw [if_neg (by simp), if_neg h0, if_pos hth]
  · cases hm : env.metadataResult with
    | error e =>
      refine ⟨st.youtubeMetadata, fun _ => rfl, ?_⟩
      unfold processEditorClips
      rw [if_neg (by simp), if_neg h0, if_neg hth, hm]
    | ok m =>
      refine ⟨some m, fun h => absurd h hth, ?_⟩
      unfold processEditorClips
      rw [if_neg (by simp), if_neg h0, if_neg hth, hm]

lemma squash_chain4 {α : Type} [DecidableEq α] (a b c d : α) (l1 l2 : List α)
    (hab : a ≠ b) (hbc : b ≠ c) (hcd : c ≠ d)
    (hl1 : ∀ x ∈ l1, x = a) (hl2 : ∀ x ∈ l2, x = d) :
    squashRepeats ((a :: a :: (l1 ++ ([b, c, d] ++ l2))) ++ [d]) = [a, b, c, d] := by
  rw [show (a :: a :: (l1 ++ ([b, c, d] ++ l2))) ++ [d] =
      a :: ((a :: l1) ++ (b :: (c :: (d :: (l2 ++ [d]))))) by simp]
  rw [squash_skip_const a (a :: l1) _ (by
    intro x hx
    rcases List.mem_cons.mp hx with rfl | hx
    · rfl
    · exact hl1 x hx)]
  rw [squash_cons_ne a b _ hab, squash_cons_ne b c _ hbc, squash_cons_ne c d _ hcd]
  rw [squash_const d (l2 ++ [d]) (by
    intro x hx
    rcases List.mem_append.mp hx with hx | hx
    · exact hl2 x hx
    · simpa using hx)]

/-- C2 (amended): with the voiceover enabled, a clip that starts idle and
whose calls succeed — after a prefix of clips that are skipped or handled
without throwing — passes through exactly the statuses idle, analyzing,
generating-audio, ready over the run; when the voiceover is disabled the
status moves from analyzing directly to ready, shown false below for the
claim as stated. -/
theorem processEditorClips_status_chain (env : EditorEnv) (st : EditorState)
    (i : Nat) (c : EditorClip)
    (hvoice : st.includeVoiceover = true)
    (hget : st.clips[i]? = some c) (hidle : c.status = ClipStatus.idle)
    (hbef : ∀ j cj, j < i → st.clips[j]? = some cj → clipPasses env true j cj)
    (hax : ∃ x, env.analyzeResult i = Except.ok x)
    (hay : ∃ y, env.audioResult i = Except.ok y) :
    statusSeqAt (processEditorClips true env st) i =
      [some ClipStatus.idle, some ClipStatus.analyzing,
        some ClipStatus.generatingAudio, some ClipStatus.ready] := by
  have h0 : ¬ st.clips.length = 0 := by
    intro h
    rw [List.length_eq_zero] at h
    rw [h] at hget
    simp at hget
  obtain ⟨meta, _, htrace⟩ := processEditorClips_shape env st h0
  obtain ⟨pre, post, heq, hpre, hpost, cf, hcf, hcfst⟩ :=
    procEmits_success env st.clips 0 i c hget hidle
      (fun j cj hj hcj => by simpa using hbef j cj hj hcj)
      (by simpa using hax) (by simpa using hay)
  have hdec := procGo_decompose env st.includeVoiceover st.clips [] 0
  unfold statusSeqAt
  rw [htrace]
  rw [List.map_append, List.map_cons, List.map_cons, List.map_cons, List.map_nil]
  have hst : clipStatusAt st i = some ClipStatus.idle := by
    unfold clipStatusAt
    rw [hget]
    simp [hidle]
  have hbase : clipStatusAt { st with isProcessing := true } i =
      some ClipStatus.idle := by
    unfold clipStatusAt
    show (st.clips[i]?).map (fun cc => cc.status) = _
    rw [hget]
    simp [hidle]
  have hemits : ((procGo env st.includeVoiceover [] 0 st.clips).1.map
      (fun cl => { st with isProcessing := true, clips := cl })).map
        (fun s => clipStatusAt s i) =
      pre ++ ([some ClipStatus.analyzing, some ClipStatus.generatingAudio,
        some ClipStatus.ready] ++ post) := by
    rw [hdec.1, hvoice]
    rw [← heq, List.map_map, List.map_map]
    apply List.map_congr_left
    intro t _
    simp [clipStatusAt, Function.comp]
  have hfin : clipStatusAt
      { st with
          isProcessing := false,
          clips := (procGo env st.includeVoiceover [] 0 st.clips).2.1,
          youtubeMetadata := meta } i = some ClipStatus.ready := by
    unfold clipStatusAt
    show (((procGo env st.includeVoiceover [] 0 st.clips).2.1)[i]?).map
      (fun cc => cc.status) = _
    rw [hdec.2.1, hvoice]
    show ((([] ++ procFinalClips env true 0 st.clips))[i]?).map
      (fun cc => cc.status) = _
    rw [List.nil_append, hcf]
    simp [hcfst]
  rw [hst, hbase, hemits, hfin]
  exact squash_chain4 (some ClipStatus.idle) (some ClipStatus.analyzing)
    (some ClipStatus.generatingAudio) (some ClipStatus.ready) pre post
    (by decide) (by decide) (by decide) hpre hpost

/-- Counterexample to C2 as stated: with includeVoiceover disabled the
clip is processed successfully to ready without ever holding the
generating-audio status, and no narration audio is attached. -/
theorem processEditorClips_status_chain_cex :
    statusSeqAt (processEditorClips true
        ⟨fun _ => Except.ok ("an", "narr"), fun _ => Except.ok "aud",
          Except.ok ⟨"t", "d", []⟩⟩
        ⟨[⟨"c1", ⟨"c1", "u1", 35⟩, "u1", 35, none, none, none, ClipStatus.idle⟩],
          false, false, false, false, none, none⟩) 0 =
      [some ClipStatus.idle, some ClipStatus.analyzing, some ClipStatus.ready] ∧
    (some ClipStatus.generatingAudio ∉
      (processEditorClips true
        ⟨fun _ => Except.ok ("an", "narr"), fun _ => Except.ok "aud",
          Except.ok ⟨"t", "d", []⟩⟩
        ⟨[⟨"c1", ⟨"c1", "u1", 35⟩, "u1", 35, none, none, none, ClipStatus.idle⟩],
          false, false, false, false, none, none⟩).map (fun s => clipStatusAt s 0)) ∧
    clipStatusAt (processFinal true
        ⟨fun _ => Except.ok ("an", "narr"), fun _ => Except.ok "aud",
          Except.ok ⟨"t", "d", []⟩⟩
        ⟨[⟨"c1", ⟨"c1", "u1", 35⟩, "u1", 35, none, none, none, ClipStatus.idle⟩],
          false, false, false, false, none, none⟩) 0 = some ClipStatus.ready ∧
    (processFinal true
        ⟨fun _ => Except.ok ("an", "narr"), fun _ => Except.ok "aud",
          Except.ok ⟨"t", "d", []⟩⟩
        ⟨[⟨"c1", ⟨"c1", "u1", 35⟩, "u1", 35, none, none, none, ClipStatus.idle⟩],
          false, false, false, false, none, none⟩).clips.map (fun cc => cc.audioUrl) =
      [none] := by
  refine ⟨?_, ?_, ?_, ?_⟩ <;> decide

/-- Witness for C2 (amended) at a concrete two-clip project. -/
theorem processEditorClips_status_chain_witness :
    statusSeqAt (processEditorClips true
        ⟨fun _ => Except.ok ("an", "narr"), fun _ => Except.ok "aud",
          Except.ok ⟨"t", "d", []⟩⟩
        ⟨[⟨"c1", ⟨"c1", "u1", 20⟩, "u1", 20, none, none, none, ClipStatus.idle⟩,
          ⟨"c2", ⟨"c2", "u2", 15⟩, "u2", 15, none, none, none, ClipStatus.idle⟩],
          false, true, false, false, none, none⟩) 1 =
      [some ClipStatus.idle, some ClipStatus.analyzing,
        some ClipStatus.generatingAudio, some ClipStatus.ready] :=
  processEditorClips_status_chain
    ⟨fun _ => Except.ok ("an", "narr"), fun _ => Except.ok "aud",
      Except.ok ⟨"t", "d", []⟩⟩
    ⟨[⟨"c1", ⟨"c1", "u1", 20⟩, "u1", 20, none, none, none, ClipStatus.idle⟩,
      ⟨"c2", ⟨"c2", "u2", 15⟩, "u2", 15, none, none, none, ClipStatus.idle⟩],
      false, true, false, false, none, none⟩ 1
    ⟨"c2", ⟨"c2", "u2", 15⟩, "u2", 15, none, none, none, ClipStatus.idle⟩
    rfl rfl rfl
    (by
      intro j cj hj hcj
      interval_cases j
      right
      refine ⟨⟨("an", "narr"), rfl⟩, fun _ => ⟨"aud", rfl⟩⟩)
    ⟨("an", "narr"), rfl⟩ ⟨"aud", rfl⟩

/-- C8: when a clip throws during processEditorClips, that clip ends
idle, later clips keep their pre-run state, isProcessing ends false and
youtubeMetadata is untouched by the run. -/
theorem processEditorClips_throw_behavior (env : EditorEnv) (st : EditorState)
    (i : Nat) (c : EditorClip)
    (hget : st.clips[i]? = some c) (hnr : c.status ≠ ClipStatus.ready)
    (hbef : ∀ j cj, j < i → st.clips[j]? = some cj →
      clipPasses env st.includeVoiceover j cj)
    (hthrow : clipThrows env st.includeVoiceover i) :
    (∃ ci, (processFinal true env st).clips[i]? = some ci ∧
      ci.status = ClipStatus.idle) ∧
    (∀ j, i < j → (processFinal true env st).clips[j]? = st.clips[j]?) ∧
    (processFinal true env st).isProcessing = false ∧
    (processFinal true env st).youtubeMetadata = st.youtubeMetadata := by
  have h0 : ¬ st.clips.length = 0 := by
    intro h
    rw [List.length_eq_zero] at h
    rw [h] at hget
    simp at hget
  obtain ⟨meta, hmeta, htrace⟩ := processEditorClips_shape env st h0
  have hdec := procGo_decompose env st.includeVoiceover st.clips [] 0
  have hth := procFinalClips_throw env st.includeVoiceover st.clips 0 i c hget hnr
    (fun j cj hj hcj => by simpa using hbef j cj hj hcj)
    (by simpa using hthrow)
  have hthrew : (procGo env st.includeVoiceover [] 0 st.clips).2.2 = true := by
    rw [hdec.2.2]
    exact hth.1
  have hfin : processFinal true env st =
      { st with
          isProcessing := false,
          clips := (procGo env st.includeVoiceover [] 0 st.clips).2.1,
          youtubeMetadata := meta } := by
    unfold processFinal
    rw [htrace, getLastD_append_singleton]
  have hclips : (processFinal true env st).clips =
      procFinalClips env st.includeVoiceover 0 st.clips := by
    rw [hfin]
    show (procGo env st.includeVoiceover [] 0 st.clips).2.1 = _
    rw [hdec.2.1]
    simp
  refine ⟨?_, ?_, ?_, ?_⟩
  · rw [hclips]
    exact hth.2.1
  · intro j hj
    rw [hclips]
    exact hth.2.2 j hj
  · rw [hfin]
  · rw [hfin]
    show meta = st.youtubeMetadata
    exact hmeta hthrew

/-- Witness for C8: two clips, the second one failing its narration call. -/
theorem processEditorClips_throw_behavior_witness :
    (∃ ci, (processFinal true
        ⟨fun _ => Except.ok ("an", "narr"),
          fun j => if j = 1 then Except.error "boom" else Except.ok "aud",
          Except.ok ⟨"t", "d", []⟩⟩
        ⟨[⟨"c1", ⟨"c1", "u1", 20⟩, "u1", 20, none, none, none, ClipStatus.idle⟩,
          ⟨"c2", ⟨"c2", "u2", 15⟩, "u2", 15, none, none, none, ClipStatus.idle⟩],
          false, true, false, false, none, none⟩).clips[1]? = some ci ∧
      ci.status = ClipStatus.idle) ∧
    (processFinal true
        ⟨fun _ => Except.ok ("an", "narr"),
          fun j => if j = 1 then Except.error "boom" else Except.ok "aud",
          Except.ok ⟨"t", "d", []⟩⟩
        ⟨[⟨"c1", ⟨"c1", "u1", 20⟩, "u1", 20, none, none, none, ClipStatus.idle⟩,
          ⟨"c2", ⟨"c2", "u2", 15⟩, "u2", 15, none, none, none, ClipStatus.idle⟩],
          false, true, false, false, none, none⟩).isProcessing = false := by
  have h := processEditorClips_throw_behavior
    ⟨fun _ => Except.ok ("an", "narr"),
      fun j => if j = 1 then Except.error "boom" else Except.ok "aud",
      Except.ok ⟨"t", "d", []⟩⟩
    ⟨[⟨"c1", ⟨"c1", "u1", 20⟩, "u1", 20, none, none, none, ClipStatus.idle⟩,
      ⟨"c2", ⟨"c2", "u2", 15⟩, "u2", 15, none, none, none, ClipStatus.idle⟩],
      false, true, false, false, none, none⟩ 1
    ⟨"c2", ⟨"c2", "u2", 15⟩, "u2", 15, none, none, none, ClipStatus.idle⟩
    rfl (by decide)
    (by
      intro j cj hj hcj
      interval_cases j
      right
      refine ⟨⟨("an", "narr"), rfl⟩, fun _ => ⟨"aud", rfl⟩⟩)
    (Or.inr ⟨rfl, ⟨("an", "narr"), rfl⟩, ⟨"boom", rfl⟩⟩)
  exact ⟨h.1, h.2.2.1⟩

end TourGenie
